import Mathlib

/-!
Verification development for the `url-watcher` repository.

The TypeScript sources (`src/watcher.ts`, `src/notifier.ts`, `src/kv.ts`)
are shallowly embedded below: the pure helpers (`sha256Hex`,
`sanitizeDynamicContent`, `extractBody`) become Lean functions on `String`
or `List Char`; the effectful orchestration (`checkOne`,
`checkSiteAndMaybeNotify`) becomes explicit state passing over a `Store`
record, with external collaborators (fetch, the KV commit, the Telegram
transport) supplied as fields of an `Env` record.
-/

set_option maxRecDepth 40000

namespace UrlWatcher

/-! ### Bytes and 32-bit words

`crypto.subtle.digest('SHA-256', …)` works over bytes; we model bytes as
`Nat` values below 256 and 32-bit words as `Nat` values reduced mod `2^32`.
-/

/-- Reduce a natural number to a 32-bit word. -/
def w32 (n : Nat) : Nat := n % 4294967296

/-- Right rotation of a 32-bit word by `n` bits. -/
def rotr (n x : Nat) : Nat := w32 ((x >>> n) ||| (x <<< (32 - n)))

/-- SHA-256 `Ch` function. -/
def shaCh (x y z : Nat) : Nat := (x &&& y) ^^^ ((w32 (4294967295 - x % 4294967296)) &&& z)

/-- SHA-256 `Maj` function. -/
def shaMaj (x y z : Nat) : Nat := (x &&& y) ^^^ (x &&& z) ^^^ (y &&& z)

/-- SHA-256 big sigma 0. -/
def bigSigma0 (x : Nat) : Nat := rotr 2 x ^^^ rotr 13 x ^^^ rotr 22 x

/-- SHA-256 big sigma 1. -/
def bigSigma1 (x : Nat) : Nat := rotr 6 x ^^^ rotr 11 x ^^^ rotr 25 x

/-- SHA-256 small sigma 0. -/
def smallSigma0 (x : Nat) : Nat := rotr 7 x ^^^ rotr 18 x ^^^ (x >>> 3)

/-- SHA-256 small sigma 1. -/
def smallSigma1 (x : Nat) : Nat := rotr 17 x ^^^ rotr 19 x ^^^ (x >>> 10)

/-- The 64 SHA-256 round constants. -/
def shaK : List Nat :=
  [1116352408, 1899447441, 3049323471, 3921009573,
   961987163, 1508970993, 2453635748, 2870763221,
   3624381080, 310598401, 607225278, 1426881987,
   1925078388, 2162078206, 2614888103, 3248222580,
   3835390401, 4022224774, 264347078, 604807628,
   770255983, 1249150122, 1555081692, 1996064986,
   2554220882, 2821834349, 2952996808, 3210313671,
   3336571891, 3584528711, 113926993, 338241895,
   666307205, 773529912, 1294757372, 1396182291,
   1695183700, 1986661051, 2177026350, 2456956037,
   2730485921, 2820302411, 3259730800, 3345764771,
   3516065817, 3600352804, 4094571909, 275423344,
   430227734, 506948616, 659060556, 883997877,
   958139571, 1322822218, 1537002063, 1747873779,
   1955562222, 2024104815, 2227730452, 2361852424,
   2428436474, 2756734187, 3204031479, 3329325298]

/-- The eight-word SHA-256 working state. -/
structure H8 where
  a : Nat
  b : Nat
  c : Nat
  d : Nat
  e : Nat
  f : Nat
  g : Nat
  h : Nat
deriving Repr, DecidableEq

/-- Initial SHA-256 hash state. -/
def shaInit : H8 :=
  ⟨1779033703, 3144134277, 1013904242, 2773480762,
   1359893119, 2600822924, 528734635, 1541459225⟩

/-- One SHA-256 compression round. -/
def shaRound (x : H8) (ki wi : Nat) : H8 :=
  let t1 := w32 (x.h + bigSigma1 x.e + shaCh x.e x.f x.g + ki + wi)
  let t2 := w32 (bigSigma0 x.a + shaMaj x.a x.b x.c)
  ⟨w32 (t1 + t2), x.a, x.b, x.c, w32 (x.d + t1), x.e, x.f, x.g⟩

/-- Fold the 64 rounds over paired round constants and schedule words. -/
def shaRounds (x : H8) : List Nat → List Nat → H8
  | k :: ks, w :: ws => shaRounds (shaRound x k w) ks ws
  | _, _ => x

/-- Convert a big-endian group of four bytes into 32-bit words. -/
def bytesToWords : List Nat → List Nat
  | b0 :: b1 :: b2 :: b3 :: rest =>
      w32 ((b0 <<< 24) ||| (b1 <<< 16) ||| (b2 <<< 8) ||| b3) :: bytesToWords rest
  | _ => []

/-- Extend the 16 message words by `n` further schedule words. -/
def extendWords (ws : Array Nat) : Nat → Array Nat
  | 0 => ws
  | n + 1 =>
      let s := ws.size
      let v := w32 (smallSigma1 (ws.getD (s - 2) 0) + ws.getD (s - 7) 0 +
        smallSigma0 (ws.getD (s - 15) 0) + ws.getD (s - 16) 0)
      extendWords (ws.push v) n

/-- Compress one 64-byte chunk into the running hash state. -/
def shaCompress (st : H8) (chunk : List Nat) : H8 :=
  let ws := extendWords (Array.mk (bytesToWords chunk)) 48
  let r := shaRounds st shaK ws.toList
  ⟨w32 (st.a + r.a), w32 (st.b + r.b), w32 (st.c + r.c), w32 (st.d + r.d),
   w32 (st.e + r.e), w32 (st.f + r.f), w32 (st.g + r.g), w32 (st.h + r.h)⟩

/-- Split a byte list into 64-byte chunks.  The first argument is fuel
bounding the number of chunks; `chunks64` supplies enough. -/
def chunksGo : Nat → List Nat → List (List Nat)
  | 0, _ => []
  | _ + 1, [] => []
  | fuel + 1, x :: rest => ((x :: rest).take 64) :: chunksGo fuel ((x :: rest).drop 64)

/-- Split a byte list into 64-byte chunks. -/
def chunks64 (l : List Nat) : List (List Nat) := chunksGo (l.length / 64 + 1) l

/-- Big-endian serialization of `n` into `k` bytes. -/
def natToBytesBE (k n : Nat) : List Nat :=
  match k with
  | 0 => []
  | j + 1 => ((n >>> (8 * j)) % 256) :: natToBytesBE j n

/-- SHA-256 message padding: `0x80`, zeros to 56 mod 64, then the 64-bit
bit-length, big-endian. -/
def shaPad (msg : List Nat) : List Nat :=
  let len := msg.length
  let zeros := (119 - len % 64) % 64
  msg ++ 0x80 :: List.replicate zeros 0 ++ natToBytesBE 8 ((len * 8) % 18446744073709551616)

/-- Serialize one 32-bit word to four big-endian bytes. -/
def wordToBytes (w : Nat) : List Nat :=
  [(w >>> 24) % 256, (w >>> 16) % 256, (w >>> 8) % 256, w % 256]

/-- Final SHA-256 hash state for a byte message. -/
def sha256State (msg : List Nat) : H8 :=
  (chunks64 (shaPad msg)).foldl shaCompress shaInit

/-- SHA-256 digest of a byte sequence, as 32 bytes.  This models the
`crypto.subtle.digest('SHA-256', …)` call in `sha256Hex`. -/
def sha256Bytes (msg : List Nat) : List Nat :=
  wordToBytes (sha256State msg).a ++ wordToBytes (sha256State msg).b ++
    wordToBytes (sha256State msg).c ++ wordToBytes (sha256State msg).d ++
    wordToBytes (sha256State msg).e ++ wordToBytes (sha256State msg).f ++
    wordToBytes (sha256State msg).g ++ wordToBytes (sha256State msg).h

/-- UTF-8 encoding of one character, as in `TextEncoder.encode`. -/
def utf8EncodeChar (c : Char) : List Nat :=
  let n := c.toNat
  if n < 0x80 then [n]
  else if n < 0x800 then [0xc0 ||| (n >>> 6), 0x80 ||| (n &&& 0x3f)]
  else if n < 0x10000 then
    [0xe0 ||| (n >>> 12), 0x80 ||| ((n >>> 6) &&& 0x3f), 0x80 ||| (n &&& 0x3f)]
  else
    [0xf0 ||| (n >>> 18), 0x80 ||| ((n >>> 12) &&& 0x3f), 0x80 ||| ((n >>> 6) &&& 0x3f),
     0x80 ||| (n &&& 0x3f)]

/-- UTF-8 encoding of a string (`new TextEncoder().encode(input)`). -/
def utf8Encode (s : String) : List Nat := (s.data.map utf8EncodeChar).flatten

/-- Hex digit character, lowercase, as produced by `Number.prototype.toString(16)`. -/
def hexDigitChar (n : Nat) : Char := if n < 10 then Char.ofNat (48 + n) else Char.ofNat (87 + n)

/-- Two-character lowercase hex rendering of a byte
(`b.toString(16).padStart(2, '0')`). -/
def hexByte (b : Nat) : List Char := [hexDigitChar (b / 16), hexDigitChar (b % 16)]

/-- `sha256Hex` from `src/watcher.ts`: SHA-256 of the UTF-8 encoding of the
input, rendered as lowercase hexadecimal. -/
def sha256Hex (input : String) : String :=
  String.mk (((sha256Bytes (utf8Encode input)).map hexByte).flatten)

/-! ### Content normalization

`sanitizeDynamicContent` in `src/watcher.ts` is a pipeline of five
JavaScript regex replacements.  Each global replacement is embedded as a
left-to-right scanner over `List Char`: at every position it tries the
pattern; on a match it emits nothing and resumes after the match (the
replacement is the empty string), otherwise it emits the character and
advances one position — exactly the behaviour of `String.replace` with a
global regex and `''` replacement.  The scanners use structural recursion
on a fuel argument initialized to the input length, which each step
strictly dominates.
-/

/-- JavaScript word character (`\w` = `[A-Za-z0-9_]`). -/
def isWordChar (c : Char) : Bool := c.isAlphanum || c = '_'

/-- JavaScript whitespace (`\\s`): space, tab, line terminators, and the
Unicode space separators plus U+FEFF. -/
def isJsWs (c : Char) : Bool :=
  let n := c.toNat
  n = 0x20 || n = 0x09 || n = 0x0a || n = 0x0d || n = 0x0b || n = 0x0c ||
  n = 0xa0 || n = 0x1680 || (0x2000 <= n && n <= 0x200a) ||
  n = 0x2028 || n = 0x2029 || n = 0x202f || n = 0x205f || n = 0x3000 || n = 0xfeff

/-- A single- or double-quote character (the regexes use `(?:"|')`). -/
def isQuote (c : Char) : Bool := c = '"' || c = '\''

/-- Case-insensitive literal match: `matchCI pat s` returns the remainder of
`s` after `pat` when the lowercase pattern matches a prefix of `s`
case-insensitively (the regexes carry the `i` flag). -/
def matchCI : List Char → List Char → Option (List Char)
  | [], s => some s
  | _ :: _, [] => none
  | p :: ps, c :: cs => if c.toLower = p then matchCI ps cs else none

/-- The four anti-forgery field names of the hidden-input regex
(`_token|csrf|csrf_token|authenticity_token`), lowercase. -/
def csrfNames : List (List Char) :=
  ["_token".toList, "csrf".toList, "csrf_token".toList, "authenticity_token".toList]

/-- Whether `nm` is a case-insensitive exact match of one of the
anti-forgery field names. -/
def isCsrfName (nm : List Char) : Bool :=
  csrfNames.any (fun p => matchCI p nm == some [])

/-- Match `(?:"|')(?:_token|csrf|csrf_token|authenticity_token)(?:"|')` at
the start of `s`. -/
def matchNameQ (s : List Char) : Bool :=
  match s with
  | q :: rest =>
      isQuote q &&
        csrfNames.any (fun nm =>
          match matchCI nm rest with
          | some (q' :: _) => isQuote q'
          | _ => false)
  | [] => false

/-- Match `(?:"|')hidden(?:"|')` at the start of `s`, returning the rest. -/
def matchHiddenQ (s : List Char) : Option (List Char) :=
  match s with
  | q :: rest =>
      if isQuote q then
        match matchCI "hidden".toList rest with
        | some (q' :: rest') => if isQuote q' then some rest' else none
        | _ => none
      else none
  | [] => none

/-- Search the tag body for `\bname=(?:"|')(?:…names…)(?:"|')`; `prev` is the
character preceding the current position (for the `\b` boundary). -/
def findName (prev : Char) : List Char → Bool
  | [] => false
  | c :: cs =>
      (!(isWordChar prev) &&
        (match matchCI "name=".toList (c :: cs) with
         | some rest => matchNameQ rest
         | none => false)) ||
      findName c cs

/-- Search the tag body for `\btype=(?:"|')hidden(?:"|')` followed (anywhere
later in the body) by the `name` pattern. -/
def findTypeThenName (prev : Char) : List Char → Bool
  | [] => false
  | c :: cs =>
      (!(isWordChar prev) &&
        (match matchCI "type=".toList (c :: cs) with
         | some rest =>
             match matchHiddenQ rest with
             | some rest' => findName '"' rest'
             | none => false
         | none => false)) ||
      findTypeThenName c cs

/-- Given the text following a case-insensitive `<input`, decide whether the
hidden-CSRF-input regex matches here, and return the text after the
closing `>`.  Every component of the regex between `<input` and the final
`>` matches only non-`>` characters, so the match extends exactly to the
first `>`. -/
def csrfTagMatch (s : List Char) : Option (List Char) :=
  match s with
  | [] => none
  | c :: _ =>
      if isWordChar c then none  -- the `\b` after `<input` fails
      else
        match s.dropWhile (fun x => x ≠ '>') with
        | _ :: rest =>
            if findTypeThenName 't' (s.takeWhile (fun x => x ≠ '>')) then some rest else none
        | [] => none

/-- One attempted match of the hidden-CSRF-input regex at the current
position: `<input` (case-insensitive) followed by `csrfTagMatch`. -/
def csrfStep : List Char → Option (List Char)
  | [] => none
  | c :: cs =>
      if c = '<' then
        match matchCI "input".toList cs with
        | some rest => csrfTagMatch rest
        | none => none
      else none

/-- Rest of the input after the first `-->` (the lazy `[\s\S]*?` of the
comment regex stops at the first closing marker). -/
def findAfterClose : List Char → Option (List Char)
  | [] => none
  | c :: cs =>
      if c = '-' ∧ cs.take 2 = ['-', '>'] then some (cs.drop 2)
      else findAfterClose cs

/-- One attempted match of the HTML-comment regex `<!--([\s\S]*?)-->`. -/
def commentStep : List Char → Option (List Char)
  | [] => none
  | c :: cs =>
      if c = '<' ∧ cs.take 3 = ['!', '-', '-'] then findAfterClose (cs.drop 3)
      else none

/-- Rest of the input after the first case-insensitive occurrence of `pat`. -/
def findClose (pat : List Char) : List Char → Option (List Char)
  | [] => none
  | c :: cs =>
      match matchCI pat (c :: cs) with
      | some r => some r
      | none => findClose pat cs

/-- After a case-insensitive `<script` (or `<style`): `\b`, then `[^>]*>`,
then the lazy body up to the first matching close tag. -/
def tagBlockEnd (tag : List Char) : List Char → Option (List Char)
  | [] => none
  | c :: cs =>
      if isWordChar c then none
      else
        match (c :: cs).dropWhile (fun x => x ≠ '>') with
        | _ :: rest => findClose ('<' :: '/' :: (tag ++ ['>'])) rest
        | [] => none

/-- One attempted match of the `<script…>…</script>` (or style) regex. -/
def tagBlockStep (tag : List Char) : List Char → Option (List Char)
  | [] => none
  | c :: cs =>
      if c = '<' then
        match matchCI tag cs with
        | some rest => tagBlockEnd tag rest
        | none => none
      else none

/-- Generic global-replace-with-empty scanner: at each position try `step`;
on success resume after the match, otherwise emit one character.  Fuel is
consumed once per position and is initialized (by `scanRun`) to the input
length, which suffices because every step consumes at least one
character. -/
def scanGo (step : List Char → Option (List Char)) : Nat → List Char → List Char
  | 0, l => l
  | _ + 1, [] => []
  | fuel + 1, c :: cs =>
      match step (c :: cs) with
      | some rest => scanGo step fuel rest
      | none => c :: scanGo step fuel cs

/-- Run the scanner with sufficient fuel. -/
def scanRun (step : List Char → Option (List Char)) (l : List Char) : List Char :=
  scanGo step l.length l

/-- `out.replace(/<input\b[^>]*\btype=(?:"|')hidden(?:"|')[^>]*\bname=(?:"|')(?:_token|csrf|csrf_token|authenticity_token)(?:"|')[^>]*>/gis, '')`. -/
def removeCsrfInputs (l : List Char) : List Char := scanRun csrfStep l

/-- `out.replace(/<!--([\s\S]*?)-->/g, '')`. -/
def removeComments (l : List Char) : List Char := scanRun commentStep l

/-- `out.replace(/<script\b[^>]*>[\s\S]*?<\/script>/gis, '')` and the
analogous style replacement. -/
def removeTagBlocks (tag : List Char) (l : List Char) : List Char :=
  scanRun (tagBlockStep tag) l

/-- `replace(/\s+/g, ' ')` as a two-state machine: `inRun` records whether
the previous character was whitespace. -/
def collapseWsAux : List Char → Bool → List Char
  | [], _ => []
  | c :: cs, inRun =>
      if isJsWs c then
        if inRun then collapseWsAux cs true else ' ' :: collapseWsAux cs true
      else c :: collapseWsAux cs false

/-- `String.prototype.trim`. -/
def trimWs (l : List Char) : List Char :=
  ((l.dropWhile isJsWs).reverse.dropWhile isJsWs).reverse

/-- The sanitization pipeline over character lists: remove hidden
CSRF-like inputs, HTML comments, script and style blocks, then collapse
whitespace runs to single spaces and trim. -/
def sanitizeChars (l : List Char) : List Char :=
  trimWs (collapseWsAux
    (removeTagBlocks "style".toList
      (removeTagBlocks "script".toList
        (removeComments (removeCsrfInputs l)))) false)

/-- `sanitizeDynamicContent` from `src/watcher.ts`. -/
def sanitizeDynamicContent (content : String) : String :=
  String.mk (sanitizeChars content.data)

/-- After a case-insensitive `<body`: `\b` then `[^>]*>`, returning the rest. -/
def bodyOpenEnd : List Char → Option (List Char)
  | [] => none
  | c :: cs =>
      if isWordChar c then none
      else
        match (c :: cs).dropWhile (fun x => x ≠ '>') with
        | _ :: rest => some rest
        | [] => none

/-- Prefix of the input before the first case-insensitive occurrence of
`pat` (the lazy capture group of the body regex), or `none` when `pat`
does not occur. -/
def takeUntil (pat : List Char) : List Char → Option (List Char)
  | [] => none
  | c :: cs =>
      match matchCI pat (c :: cs) with
      | some _ => some []
      | none =>
          match takeUntil pat cs with
          | some r => some (c :: r)
          | none => none

/-- First-match search for `/<body\b[^>]*>([\s\S]*?)<\/body>/i`, returning
the captured inner HTML. -/
def extractBodyGo : Nat → List Char → Option (List Char)
  | 0, _ => none
  | _ + 1, [] => none
  | fuel + 1, c :: cs =>
      if c = '<' then
        match matchCI "body".toList cs with
        | some rest =>
            match bodyOpenEnd rest with
            | some inner =>
                match takeUntil ('<' :: '/' :: "body>".toList) inner with
                | some captured => some captured
                | none => extractBodyGo fuel cs
            | none => extractBodyGo fuel cs
        | none => extractBodyGo fuel cs
      else extractBodyGo fuel cs

/-- `extractBody` from `src/watcher.ts`: inner HTML of the first `<body>`
element, or `null` when absent. -/
def extractBody (html : String) : Option String :=
  (extractBodyGo html.data.length html.data).map String.mk

/-- `getComparableContent` without the I/O: prefer the `<body>` inner HTML,
fall back to the whole document, then sanitize. -/
def comparableContent (html : String) : String :=
  match extractBody html with
  | some body => sanitizeDynamicContent body
  | none => sanitizeDynamicContent html

/-! ### State store, notifier and orchestrator

`src/kv.ts` keeps three keys per URL (`content`, `hash`, `updatedAt`) and
writes them with one atomic commit; the store is modelled as three partial
maps.  External collaborators — the fetch transport, the KV commit result,
the Telegram transport and its configuration — are fields of `Env`.
`checkOne` returns the produced `CheckResult` together with the resulting
store and the list of notification messages attempted, making the
per-target effects explicit.
-/

/-- The Deno-KV-backed state, per `keysFor`: three keys per URL. -/
structure Store where
  content : String → Option String
  hash : String → Option String
  updatedAt : String → Option String

/-- `getCachedHash`: the cached hash entry, or `null` when absent. -/
def getCachedHash (st : Store) (url : String) : Option String := st.hash url

/-- JavaScript falsiness of the (nullable) cached hash: `null`/`undefined`
and the empty string are falsy. -/
def optFalsy : Option String → Bool
  | none => true
  | some s => s = ""

/-- The store after an atomic commit of content, hash and timestamp for
`url`. -/
def committedStore (st : Store) (url content hash now : String) : Store :=
  { content := fun u => if u = url then some content else st.content u
    hash := fun u => if u = url then some hash else st.hash u
    updatedAt := fun u => if u = url then some now else st.updatedAt u }

/-- `setCache`: atomically replace content, hash and timestamp for `url`;
when the commit reports failure it throws `'KV atomic set failed'`. -/
def setCache (st : Store) (url content hash now : String) (commitOk : Bool) :
    Except String Store :=
  if commitOk then .ok (committedStore st url content hash now)
  else .error "KV atomic set failed"

/-- Outcome of one `notifyAdmin` call (`src/notifier.ts`): skipped when the
bot token or the admin user id is unconfigured, otherwise delivered or
failed according to the transport; never throws. -/
inductive NotifyResult where
  | skippedNoToken
  | skippedNoAdmin
  | delivered
  | failed
deriving Repr, DecidableEq

/-- `notifyAdmin` from `src/notifier.ts`.  The `BOT` singleton exists
exactly when `CONFIG.TOKEN` is truthy, so `!CONFIG.TOKEN || !BOT` reduces
to the token being absent or empty. -/
def notifyAdmin (token : Option String) (adminId : Option Int) (sendOk : Bool) :
    NotifyResult :=
  if optFalsy token then .skippedNoToken
  else if adminId = none then .skippedNoAdmin
  else if sendOk then .delivered
  else .failed

/-- The notification message for a changed URL. -/
def notifyMessage (url : String) : String :=
  "Url Watcher: o conteúdo de " ++ url ++ " mudou."

/-- Check status, as in the `CheckResult` type of `src/watcher.ts`. -/
inductive Status where
  | initialized
  | changed
  | unchanged
  | error
deriving Repr, DecidableEq

/-- `CheckResult` from `src/watcher.ts`.  Optional fields that the code
omits are `none`; `previousHash` is optional and nullable
(`some none` models an explicit `null`). -/
structure CheckResult where
  url : String
  changed : Option Bool
  status : Status
  hash : Option String := none
  previousHash : Option (Option String) := none
  updatedAt : Option String
  error : Option String := none
deriving Repr, DecidableEq

/-- The `CheckResult` produced in the `catch` of `checkOne` and in the
rejected branch of the `Promise.allSettled` aggregation. -/
def errorResult (url e : String) : CheckResult :=
  { url := url, changed := none, status := .error, updatedAt := none, error := some e }

/-- External collaborators and configuration for one check. -/
structure Env where
  /-- Result of `fetchHtml` for each URL: the document text, or the message
  of the thrown error (non-2xx status or network failure). -/
  fetch : String → Except String String
  store : Store
  /-- `new Date().toISOString()` at the commit. -/
  now : String
  /-- Whether `kv.atomic().…​.commit()` reports `ok`. -/
  commitOk : Bool
  /-- `CONFIG.TOKEN`. -/
  token : Option String
  /-- `CONFIG.ADMIN_USER_ID`. -/
  adminId : Option Int
  /-- Whether `BOT.api.sendMessage` succeeds. -/
  sendOk : Bool

/-- `getComparableContent`: fetch, then prefer the `<body>` inner HTML,
then sanitize; fetch errors propagate. -/
def getComparableContent (env : Env) (url : String) : Except String String :=
  match env.fetch url with
  | .error e => .error e
  | .ok html => .ok (comparableContent html)

/-- Everything `checkOne` produces: the result, the final store, the
notification messages attempted and their outcomes. -/
structure CheckOutcome where
  result : CheckResult
  store : Store
  sent : List String
  notifyOutcomes : List NotifyResult

/-- `checkOne` from `src/watcher.ts`: fetch and normalize, hash, compare
with the cached hash, update the cache and notify on change; every error
is caught at this boundary and converted into an `error` result. -/
def checkOne (env : Env) (url : String) : CheckOutcome :=
  match getComparableContent env url with
  | .error e => ⟨errorResult url e, env.store, [], []⟩
  | .ok content =>
    if optFalsy (getCachedHash env.store url) then
      match setCache env.store url content (sha256Hex content) env.now env.commitOk with
      | .error e => ⟨errorResult url e, env.store, [], []⟩
      | .ok st =>
        ⟨{ url := url, changed := none, status := .initialized,
           hash := some (sha256Hex content),
           previousHash := some none, updatedAt := st.updatedAt url }, st, [], []⟩
    else if getCachedHash env.store url ≠ some (sha256Hex content) then
      match setCache env.store url content (sha256Hex content) env.now env.commitOk with
      | .error e => ⟨errorResult url e, env.store, [], []⟩
      | .ok st =>
        ⟨{ url := url, changed := some true, status := .changed,
           hash := some (sha256Hex content),
           previousHash := some (getCachedHash env.store url),
           updatedAt := st.updatedAt url }, st,
         [notifyMessage url], [notifyAdmin env.token env.adminId env.sendOk]⟩
    else
      ⟨{ url := url, changed := some false, status := .unchanged,
         hash := some (sha256Hex content),
         previousHash := some (getCachedHash env.store url),
         updatedAt := env.store.updatedAt url },
       env.store, [], []⟩

/-- The `settled.map((r, idx) => …)` aggregation of
`checkSiteAndMaybeNotify`: a fulfilled task keeps its value, a rejected
task becomes an `error` result for `CONFIG.TARGET_URLS[idx]`. -/
def settleAllAux (urls : List String) (idx : Nat) :
    List (Except String CheckResult) → List CheckResult
  | [] => []
  | t :: ts =>
      (match t with
       | .ok r => r
       | .error e => errorResult (urls.getD idx "") e) :: settleAllAux urls (idx + 1) ts

/-- `Promise.allSettled` aggregation over the indexed task list. -/
def settleAll (urls : List String) (tasks : List (Except String CheckResult)) :
    List CheckResult :=
  settleAllAux urls 0 tasks

/-- `checkSiteAndMaybeNotify`: run `checkOne` for every configured URL and
aggregate with `settleAll`.  Each URL owns a disjoint key space, so the
concurrent tasks are modelled by one environment per URL. -/
def checkSiteAndMaybeNotify (envOf : String → Env) (urls : List String) :
    List CheckResult :=
  settleAll urls (urls.map (fun u => Except.ok (checkOne (envOf u) u).result))

/-- The sixteen lowercase hexadecimal digit characters. -/
def hexChars : List Char := "0123456789abcdef".toList

/-- The store with no cached state for any URL. -/
def emptyStore : Store :=
  { content := fun _ => none, hash := fun _ => none, updatedAt := fun _ => none }

/-- Store hygiene invariant: every cached fingerprint has the shape
`sha256Hex` produces (64 characters). -/
def goodStore (st : Store) : Prop :=
  ∀ u fp, st.hash u = some fp → fp.length = 64

/-! ### Concrete fixtures used by witnesses and counterexamples -/

/-- A small fixed document. -/
def wHtml : String := "<html><head>t</head><body>hi <!--c--> there</body></html>"

/-- A fetch collaborator that always returns `wHtml`. -/
def wFetch : String → Except String String := fun _ => Except.ok wHtml

/-- A fetch collaborator that always fails. -/
def wFetchErr : String → Except String String :=
  fun _ => Except.error "Fetch failed with status 500"

/-- Cold environment: successful fetch, empty store, successful commit. -/
def wEnvCold : Env :=
  { fetch := wFetch, store := emptyStore, now := "2024-01-01T00:00:00.000Z",
    commitOk := true, token := none, adminId := none, sendOk := false }

/-- Environment whose fetch fails. -/
def wEnvErr : Env :=
  { fetch := wFetchErr, store := emptyStore, now := "2024-01-01T00:00:00.000Z",
    commitOk := true, token := none, adminId := none, sendOk := false }

/-- Environment whose commit fails. -/
def wEnvCommitFail : Env :=
  { fetch := wFetch, store := emptyStore, now := "2024-01-01T00:00:00.000Z",
    commitOk := false, token := none, adminId := none, sendOk := false }

/-- A store holding a stale fingerprint `"x"` for URL `"u"`. -/
def wStoreStale : Store :=
  { content := fun _ => none,
    hash := fun u => if u = "u" then some "x" else none,
    updatedAt := fun u => if u = "u" then some "2023-12-31T00:00:00.000Z" else none }

/-- Environment that will detect a change for URL `"u"`. -/
def wEnvChanged : Env :=
  { fetch := wFetch, store := wStoreStale, now := "2024-01-01T00:00:00.000Z",
    commitOk := true, token := some "tok", adminId := some 5, sendOk := true }

/-- A store already holding the fingerprint of `wHtml`'s comparable content
for URL `"u"`. -/
def wStoreCurrent : Store :=
  { content := fun u => if u = "u" then some (comparableContent wHtml) else none,
    hash := fun u => if u = "u" then some (sha256Hex (comparableContent wHtml)) else none,
    updatedAt := fun u => if u = "u" then some "2023-12-31T00:00:00.000Z" else none }

/-- Environment that will find URL `"u"` unchanged. -/
def wEnvUnchanged : Env :=
  { fetch := wFetch, store := wStoreCurrent, now := "2024-01-01T00:00:00.000Z",
    commitOk := true, token := none, adminId := none, sendOk := false }

/-- A sample fulfilled task payload for the aggregation witness. -/
def wResult : CheckResult :=
  { url := "a", changed := some false, status := .unchanged, updatedAt := none }

/-! ### Document fragments for the normalization theorems -/

/-- Whether the comment close marker `-->` occurs in the list.  A string is
the content of one HTML comment exactly when it is free of this marker. -/
def hasCloseMarker : List Char → Bool
  | [] => false
  | c :: cs =>
      if c = '-' ∧ cs.take 2 = ['-', '>'] then true
      else hasCloseMarker cs

/-- The interior of a hidden anti-forgery input tag written with the `type`
attribute before the `name` attribute: filler `j₁`, `type=` with `hidden`
in quotes `q₁`/`q₁'`, filler `j₂`, `name=` with the field name `nm` in
quotes `q₂`/`q₂'`, and trailing filler `j₃` (which typically holds the
`value` attribute). -/
def csrfBody (j₁ : List Char) (q₁ q₁' : Char) (j₂ : List Char) (q₂ : Char)
    (nm : List Char) (q₂' : Char) (j₃ : List Char) : List Char :=
  j₁ ++ ('t' :: 'y' :: 'p' :: 'e' :: '=' :: q₁ :: 'h' :: 'i' :: 'd' :: 'd' :: 'e' :: 'n' :: q₁' ::
    (j₂ ++ ('n' :: 'a' :: 'm' :: 'e' :: '=' :: q₂ :: (nm ++ (q₂' :: j₃)))))

/-- A hidden anti-forgery input tag with `type` before `name`:
`<input…type=…hidden…name=…>`. -/
def csrfTagG (j₁ : List Char) (q₁ q₁' : Char) (j₂ : List Char) (q₂ : Char)
    (nm : List Char) (q₂' : Char) (j₃ : List Char) : List Char :=
  '<' :: 'i' :: 'n' :: 'p' :: 'u' :: 't' ::
    (csrfBody j₁ q₁ q₁' j₂ q₂ nm q₂' j₃ ++ ['>'])

/-- An HTML comment with content `c`: `<!--c-->`. -/
def commentWrap (c : List Char) : List Char :=
  ['<', '!', '-', '-'] ++ c ++ ['-', '-', '>']

/-! ### Digest shape lemmas -/

theorem length_sha256Bytes (msg : List Nat) : (sha256Bytes msg).length = 32 := by
  simp [sha256Bytes, wordToBytes]

theorem wordToBytes_lt (w : Nat) : ∀ b ∈ wordToBytes w, b < 256 := by
  intro b hb
  simp only [wordToBytes, List.mem_cons, List.not_mem_nil, or_false] at hb
  rcases hb with h | h | h | h <;>
    · rw [h]; exact Nat.mod_lt _ (by norm_num)

theorem sha256Bytes_lt (msg : List Nat) : ∀ b ∈ sha256Bytes msg, b < 256 := by
  intro b hb
  simp only [sha256Bytes, List.mem_append] at hb
  rcases hb with ((((((h | h) | h) | h) | h) | h) | h) | h <;> exact wordToBytes_lt _ b h

theorem hexDigitChar_contains {n : Nat} (h : n < 16) :
    hexChars.contains (hexDigitChar n) = true := by
  interval_cases n <;> decide

theorem length_sha256Hex (s : String) : (sha256Hex s).length = 64 := by
  show (((sha256Bytes (utf8Encode s)).map hexByte).flatten).length = 64
  rw [List.length_flatten, List.map_map]
  have h1 : (List.length ∘ hexByte) = fun (_ : Nat) => 2 := by
    funext b; rfl
  rw [h1, List.map_const', List.sum_replicate, length_sha256Bytes]
  norm_num

theorem sha256Hex_all_hex (s : String) :
    ((sha256Hex s).data.all (fun c => hexChars.contains c)) = true := by
  rw [List.all_eq_true]
  intro c hc
  have hc' : c ∈ ((sha256Bytes (utf8Encode s)).map hexByte).flatten := hc
  rw [List.mem_flatten] at hc'
  obtain ⟨l, hl, hcl⟩ := hc'
  rw [List.mem_map] at hl
  obtain ⟨b, hb, rfl⟩ := hl
  have hblt := sha256Bytes_lt _ b hb
  simp only [hexByte, List.mem_cons, List.not_mem_nil, or_false] at hcl
  rcases hcl with rfl | rfl
  · exact hexDigitChar_contains (by omega)
  · exact hexDigitChar_contains (Nat.mod_lt _ (by norm_num))

theorem ne_sha256Hex_of_length {t : String} (s : String) (h : ¬t.length = 64) :
    t ≠ sha256Hex s := by
  intro he
  rw [he] at h
  exact h (length_sha256Hex s)

theorem sha256Hex_ne_empty (s : String) : sha256Hex s ≠ "" := by
  intro h
  have h64 := length_sha256Hex s
  rw [h] at h64
  simp at h64

set_option maxRecDepth 20000 in
/-- Sanity check of the digest embedding against the FIPS 180-2 test
vector for `"abc"`. -/
theorem sha256Hex_abc_vector :
    sha256Hex "abc" = "ba7816bf8f01cfea414140de5dae2223b00361a396177a9cb410ff61f20015ad" := by
  decide

/-- C8: for every input string, `sha256Hex` is the SHA-256 digest of the
string's UTF-8 encoding rendered as lowercase hexadecimal of exactly 64
characters; it is a pure function of its input, so repeated calls return
the same digest. -/
theorem C8_sha256Hex_lowercase_hex_64 (s : String) :
    (sha256Hex s).length = 64 ∧
    ((sha256Hex s).data.all (fun c => hexChars.contains c)) = true ∧
    sha256Hex s = String.mk (((sha256Bytes (utf8Encode s)).map hexByte).flatten) :=
  ⟨length_sha256Hex s, sha256Hex_all_hex s, rfl⟩

/-! ### Per-target check behaviour -/

/-- C3: for a target with no prior fingerprint (cold state), a successful
check commits content, fingerprint and timestamp together, returns
outcome `initialized` with a `null` previous fingerprint, and attempts no
notification. -/
theorem C3_cold_init (env : Env) (url html : String)
    (hf : env.fetch url = .ok html)
    (hc : env.store.hash url = none)
    (hk : env.commitOk = true) :
    (checkOne env url).result =
      { url := url, changed := none, status := .initialized,
        hash := some (sha256Hex (comparableContent html)),
        previousHash := some none, updatedAt := some env.now } ∧
    (checkOne env url).store.content url = some (comparableContent html) ∧
    (checkOne env url).store.hash url = some (sha256Hex (comparableContent html)) ∧
    (checkOne env url).store.updatedAt url = some env.now ∧
    (checkOne env url).sent = [] := by
  simp [checkOne, getComparableContent, hf, getCachedHash, hc, optFalsy, setCache, hk,
    committedStore]

/-- Witness for `C3_cold_init` on the concrete cold environment. -/
theorem C3_cold_init_witness :
    (checkOne wEnvCold "u").result =
      { url := "u", changed := none, status := .initialized,
        hash := some (sha256Hex (comparableContent wHtml)),
        previousHash := some none, updatedAt := some wEnvCold.now } ∧
    (checkOne wEnvCold "u").store.content "u" = some (comparableContent wHtml) ∧
    (checkOne wEnvCold "u").store.hash "u" = some (sha256Hex (comparableContent wHtml)) ∧
    (checkOne wEnvCold "u").store.updatedAt "u" = some wEnvCold.now ∧
    (checkOne wEnvCold "u").sent = [] :=
  C3_cold_init wEnvCold "u" wHtml rfl rfl rfl

/-- C2: when the stored fingerprint exists and differs from the new one,
the check commits the new state and then attempts exactly one
notification referencing the target; the outcome is `changed` and the
committed state does not depend on the notification configuration or
transport result. -/
theorem C2_changed_commits_then_notifies (env : Env) (url html c : String)
    (hf : env.fetch url = .ok html)
    (hc : env.store.hash url = some c)
    (hne : c ≠ "")
    (hdiff : c ≠ sha256Hex (comparableContent html))
    (hk : env.commitOk = true) :
    (checkOne env url).result.status = .changed ∧
    (checkOne env url).result.changed = some true ∧
    (checkOne env url).result.previousHash = some (some c) ∧
    (checkOne env url).sent = [notifyMessage url] ∧
    (checkOne env url).notifyOutcomes = [notifyAdmin env.token env.adminId env.sendOk] ∧
    (∃ pre suf, notifyMessage url = pre ++ url ++ suf) ∧
    (checkOne env url).store.content url = some (comparableContent html) ∧
    (checkOne env url).store.hash url = some (sha256Hex (comparableContent html)) ∧
    (checkOne env url).store.updatedAt url = some env.now ∧
    (∀ tk ad so,
      (checkOne { env with token := tk, adminId := ad, sendOk := so } url).store =
        (checkOne env url).store ∧
      (checkOne { env with token := tk, adminId := ad, sendOk := so } url).result.status =
        .changed) := by
  refine ⟨?_, ?_, ?_, ?_, ?_, ⟨"Url Watcher: o conteúdo de ", " mudou.", rfl⟩, ?_, ?_, ?_, ?_⟩ <;>
    simp [checkOne, getComparableContent, hf, getCachedHash, hc, optFalsy, hne, hdiff,
      setCache, hk, notifyMessage, committedStore]

/-- Witness for `C2_changed_commits_then_notifies` on the concrete stale
environment. -/
theorem C2_changed_commits_then_notifies_witness :
    (checkOne wEnvChanged "u").result.status = .changed ∧
    (checkOne wEnvChanged "u").sent = [notifyMessage "u"] ∧
    (checkOne wEnvChanged "u").store.hash "u" =
      some (sha256Hex (comparableContent wHtml)) := by
  have h := C2_changed_commits_then_notifies wEnvChanged "u" wHtml "x" rfl rfl
    (by decide) (ne_sha256Hex_of_length _ (by decide)) rfl
  exact ⟨h.1, h.2.2.2.1, h.2.2.2.2.2.2.2.1⟩

/-- C7: a fetch failure yields an `error` outcome carrying the underlying
error text with no store mutation; a commit failure on a path that
commits (cold state, or a differing fingerprint) likewise yields an
`error` outcome and leaves the store unchanged.  `checkOne` is a total
function, so no exception passes the per-target boundary. -/
theorem C7_fetch_and_commit_failures (env : Env) (url : String) :
    (∀ e, env.fetch url = .error e →
      (checkOne env url).result = errorResult url e ∧
      (checkOne env url).result.error = some e ∧
      (checkOne env url).store = env.store ∧
      (checkOne env url).sent = []) ∧
    (∀ html, env.fetch url = .ok html → env.commitOk = false →
      (optFalsy (env.store.hash url) = true ∨
        env.store.hash url ≠ some (sha256Hex (comparableContent html))) →
      (checkOne env url).result = errorResult url "KV atomic set failed" ∧
      (checkOne env url).store = env.store) := by
  constructor
  · intro e he
    simp [checkOne, getComparableContent, he, errorResult]
  · intro html hf hk hbranch
    by_cases hfal : optFalsy (env.store.hash url) = true
    · constructor <;>
        simp [checkOne, getComparableContent, hf, getCachedHash, hfal, setCache, hk]
    · have hdiff : env.store.hash url ≠ some (sha256Hex (comparableContent html)) := by
        rcases hbranch with h | h
        · exact absurd h hfal
        · exact h
      constructor <;>
        simp [checkOne, getComparableContent, hf, getCachedHash, hfal, hdiff, setCache, hk]

/-- Witness for `C7_fetch_and_commit_failures`: a failing fetch and,
separately, a failing commit. -/
theorem C7_fetch_and_commit_failures_witness :
    (checkOne wEnvErr "u").result = errorResult "u" "Fetch failed with status 500" ∧
    (checkOne wEnvErr "u").store = wEnvErr.store ∧
    (checkOne wEnvCommitFail "u").result = errorResult "u" "KV atomic set failed" ∧
    (checkOne wEnvCommitFail "u").store = wEnvCommitFail.store := by
  have h1 := (C7_fetch_and_commit_failures wEnvErr "u").1 "Fetch failed with status 500" rfl
  have h2 := (C7_fetch_and_commit_failures wEnvCommitFail "u").2 wHtml rfl rfl (Or.inl rfl)
  exact ⟨h1.1, h1.2.2.1, h2.1, h2.2⟩

/-! ### Path lemmas for `checkOne` -/

theorem checkOne_fetch_error (env : Env) (url e : String)
    (he : env.fetch url = .error e) :
    checkOne env url = ⟨errorResult url e, env.store, [], []⟩ := by
  simp [checkOne, getComparableContent, he]

theorem checkOne_cold_eq (env : Env) (url html : String)
    (hf : env.fetch url = .ok html)
    (hfal : optFalsy (env.store.hash url) = true)
    (hk : env.commitOk = true) :
    checkOne env url =
      ⟨{ url := url, changed := none, status := .initialized,
         hash := some (sha256Hex (comparableContent html)),
         previousHash := some none, updatedAt := some env.now },
       committedStore env.store url (comparableContent html)
         (sha256Hex (comparableContent html)) env.now, [], []⟩ := by
  simp [checkOne, getComparableContent, hf, getCachedHash, hfal, setCache, hk]
  simp [committedStore]

theorem checkOne_changed_eq (env : Env) (url html c : String)
    (hf : env.fetch url = .ok html)
    (hc : env.store.hash url = some c)
    (hne : c ≠ "")
    (hdiff : c ≠ sha256Hex (comparableContent html))
    (hk : env.commitOk = true) :
    checkOne env url =
      ⟨{ url := url, changed := some true, status := .changed,
         hash := some (sha256Hex (comparableContent html)),
         previousHash := some (some c), updatedAt := some env.now },
       committedStore env.store url (comparableContent html)
         (sha256Hex (comparableContent html)) env.now,
       [notifyMessage url], [notifyAdmin env.token env.adminId env.sendOk]⟩ := by
  simp [checkOne, getComparableContent, hf, getCachedHash, hc, optFalsy, hne, hdiff,
    setCache, hk]
  simp [committedStore]

theorem checkOne_unchanged_eq (env : Env) (url html : String)
    (hf : env.fetch url = .ok html)
    (hc : env.store.hash url = some (sha256Hex (comparableContent html))) :
    checkOne env url =
      ⟨{ url := url, changed := some false, status := .unchanged,
         hash := some (sha256Hex (comparableContent html)),
         previousHash := some (some (sha256Hex (comparableContent html))),
         updatedAt := env.store.updatedAt url },
       env.store, [], []⟩ := by
  have hne := sha256Hex_ne_empty (comparableContent html)
  simp [checkOne, getComparableContent, hf, getCachedHash, hc, optFalsy, hne]

theorem checkOne_commit_fail (env : Env) (url html : String)
    (hf : env.fetch url = .ok html)
    (hk : env.commitOk = false)
    (hbranch : optFalsy (env.store.hash url) = true ∨
      env.store.hash url ≠ some (sha256Hex (comparableContent html))) :
    checkOne env url = ⟨errorResult url "KV atomic set failed", env.store, [], []⟩ := by
  by_cases hfal : optFalsy (env.store.hash url) = true
  · simp [checkOne, getComparableContent, hf, getCachedHash, hfal, setCache, hk]
  · have hdiff : env.store.hash url ≠ some (sha256Hex (comparableContent html)) := by
      rcases hbranch with h | h
      · exact absurd h hfal
      · exact h
    simp [checkOne, getComparableContent, hf, getCachedHash, hfal, hdiff, setCache, hk]

/-- When the cached hash is not falsy it is a nonempty string. -/
theorem not_falsy_shape {env : Env} {url : String}
    (hfal : ¬optFalsy (env.store.hash url) = true) :
    ∃ c, env.store.hash url = some c ∧ c ≠ "" := by
  cases hh : env.store.hash url with
  | none => rw [hh] at hfal; simp [optFalsy] at hfal
  | some c =>
    refine ⟨c, rfl, ?_⟩
    intro hc
    rw [hh, hc] at hfal
    simp [optFalsy] at hfal

/-- Every `error`-status result of `checkOne` is an `errorResult` for the
checked URL. -/
theorem checkOne_error_shape (env : Env) (url : String)
    (hst : (checkOne env url).result.status = .error) :
    ∃ e, (checkOne env url).result = errorResult url e := by
  cases hfe : env.fetch url with
  | error e => exact ⟨e, by rw [checkOne_fetch_error env url e hfe]⟩
  | ok html =>
    by_cases hfal : optFalsy (env.store.hash url) = true
    · cases hk : env.commitOk with
      | false =>
        exact ⟨"KV atomic set failed",
          by rw [checkOne_commit_fail env url html hfe hk (Or.inl hfal)]⟩
      | true =>
        rw [checkOne_cold_eq env url html hfe hfal hk] at hst
        exact absurd hst (by simp)
    · obtain ⟨c, hc, hne⟩ := not_falsy_shape hfal
      by_cases hd : c = sha256Hex (comparableContent html)
      · rw [checkOne_unchanged_eq env url html hfe (hd ▸ hc)] at hst
        exact absurd hst (by simp)
      · cases hk : env.commitOk with
        | false =>
          have hdiff : env.store.hash url ≠ some (sha256Hex (comparableContent html)) := by
            rw [hc]; intro h; exact hd (Option.some.inj h)
          exact ⟨"KV atomic set failed",
            by rw [checkOne_commit_fail env url html hfe hk (Or.inr hdiff)]⟩
        | true =>
          rw [checkOne_changed_eq env url html c hfe hc hne hd hk] at hst
          exact absurd hst (by simp)

/-- C10: every `CheckResult` with outcome `error` — whether produced by
`checkOne`'s catch or by the aggregation's rejected branch — has `changed
= null`, `updatedAt = null`, and carries neither `hash` nor
`previousHash`, whatever state the store already holds for the target. -/
theorem C10_error_results_carry_no_state (env : Env) (url : String) :
    ((checkOne env url).result.status = .error →
      (checkOne env url).result.changed = none ∧
      (checkOne env url).result.updatedAt = none ∧
      (checkOne env url).result.hash = none ∧
      (checkOne env url).result.previousHash = none) ∧
    (∀ u e, (errorResult u e).changed = none ∧ (errorResult u e).updatedAt = none ∧
      (errorResult u e).hash = none ∧ (errorResult u e).previousHash = none) := by
  constructor
  · intro hst
    obtain ⟨e, he⟩ := checkOne_error_shape env url hst
    rw [he]
    exact ⟨rfl, rfl, rfl, rfl⟩
  · intro u e
    exact ⟨rfl, rfl, rfl, rfl⟩

/-- Witness for `C10_error_results_carry_no_state` on a failing fetch over
a store that already holds state (including a timestamp) for the target. -/
theorem C10_error_results_carry_no_state_witness :
    (checkOne { wEnvErr with store := wStoreCurrent } "u").result.changed = none ∧
    (checkOne { wEnvErr with store := wStoreCurrent } "u").result.updatedAt = none ∧
    (checkOne { wEnvErr with store := wStoreCurrent } "u").result.hash = none ∧
    (checkOne { wEnvErr with store := wStoreCurrent } "u").result.previousHash = none :=
  (C10_error_results_carry_no_state { wEnvErr with store := wStoreCurrent } "u").1 rfl

/-- C9 (a): `checkOne` writes only `sha256Hex` outputs into the store, so
the 64-character invariant on cached fingerprints is preserved.
(b): under that invariant the JavaScript falsy test on the cached hash
holds exactly when the store has no fingerprint for the target, so a
previously checked target is never misclassified as cold. -/
theorem C9_cached_hashes_wellformed (env : Env) (url : String) :
    (goodStore env.store → goodStore (checkOne env url).store) ∧
    (goodStore env.store →
      (optFalsy (env.store.hash url) = true ↔ env.store.hash url = none)) := by
  constructor
  · intro hg
    cases hfe : env.fetch url with
    | error e => rw [checkOne_fetch_error env url e hfe]; exact hg
    | ok html =>
      by_cases hfal : optFalsy (env.store.hash url) = true
      · cases hk : env.commitOk with
        | false => rw [checkOne_commit_fail env url html hfe hk (Or.inl hfal)]; exact hg
        | true =>
          rw [checkOne_cold_eq env url html hfe hfal hk]
          intro u fp hfp
          by_cases hu : u = url
          · simp only [committedStore, if_pos hu] at hfp
            cases hfp
            exact length_sha256Hex _
          · simp only [committedStore, if_neg hu] at hfp
            exact hg u fp hfp
      · obtain ⟨c, hc, hne⟩ := not_falsy_shape hfal
        by_cases hd : c = sha256Hex (comparableContent html)
        · rw [checkOne_unchanged_eq env url html hfe (hd ▸ hc)]; exact hg
        · cases hk : env.commitOk with
          | false =>
            rw [checkOne_commit_fail env url html hfe hk (Or.inr ?_)]
            · exact hg
            · rw [hc]; intro h; exact hd (Option.some.inj h)
          | true =>
            rw [checkOne_changed_eq env url html c hfe hc hne hd hk]
            intro u fp hfp
            by_cases hu : u = url
            · simp only [committedStore, if_pos hu] at hfp
              cases hfp
              exact length_sha256Hex _
            · simp only [committedStore, if_neg hu] at hfp
              exact hg u fp hfp
  · intro hg
    cases hh : env.store.hash url with
    | none => simp [optFalsy]
    | some fp =>
      have h64 := hg url fp hh
      have hne : fp ≠ "" := by
        intro hfp
        rw [hfp] at h64
        simp at h64
      simp [optFalsy, hne]

/-- Witness for `C9_cached_hashes_wellformed` on the empty store. -/
theorem C9_cached_hashes_wellformed_witness :
    goodStore (checkOne wEnvCold "u").store ∧
    (optFalsy (wEnvCold.store.hash "u") = true ↔ wEnvCold.store.hash "u" = none) := by
  have hg : goodStore wEnvCold.store := by
    intro u fp hfp
    simp [wEnvCold, emptyStore] at hfp
  exact ⟨(C9_cached_hashes_wellformed wEnvCold "u").1 hg,
    (C9_cached_hashes_wellformed wEnvCold "u").2 hg⟩

/-- C6 counterexample: the committed content is the sanitized comparable
content, not the raw fetched document.  For `wHtml` the stored content is
the normalized body `"hi there"`, which differs from the raw document. -/
theorem C6_counterexample_stores_sanitized_content :
    (checkOne wEnvCold "u").result.status = .initialized ∧
    (checkOne wEnvCold "u").store.content "u" = some "hi there" ∧
    (checkOne wEnvCold "u").store.content "u" ≠ some wHtml := by
  refine ⟨?_, ?_, ?_⟩ <;> decide

/-- C6 (amended): whenever `checkOne` commits state for a target, the
persisted content is the comparable content — the sanitized `<body>`
extract of the latest fetched document — together with its fingerprint
and the commit timestamp. -/
theorem C6_commits_comparable_content (env : Env) (url html : String)
    (hf : env.fetch url = .ok html)
    (hst : (checkOne env url).result.status = .initialized ∨
      (checkOne env url).result.status = .changed) :
    (checkOne env url).store.content url = some (comparableContent html) ∧
    (checkOne env url).store.hash url = some (sha256Hex (comparableContent html)) ∧
    (checkOne env url).store.updatedAt url = some env.now := by
  by_cases hfal : optFalsy (env.store.hash url) = true
  · cases hk : env.commitOk with
    | false =>
      rw [checkOne_commit_fail env url html hf hk (Or.inl hfal)] at hst
      exact absurd hst (by simp [errorResult])
    | true =>
      rw [checkOne_cold_eq env url html hf hfal hk]
      simp [committedStore]
  · obtain ⟨c, hc, hne⟩ := not_falsy_shape hfal
    by_cases hd : c = sha256Hex (comparableContent html)
    · rw [checkOne_unchanged_eq env url html hf (hd ▸ hc)] at hst
      exact absurd hst (by simp)
    · cases hk : env.commitOk with
      | false =>
        have hdiff : env.store.hash url ≠ some (sha256Hex (comparableContent html)) := by
          rw [hc]; intro h; exact hd (Option.some.inj h)
        rw [checkOne_commit_fail env url html hf hk (Or.inr hdiff)] at hst
        exact absurd hst (by simp [errorResult])
      | true =>
        rw [checkOne_changed_eq env url html c hf hc hne hd hk]
        simp [committedStore]

/-- Witness for `C6_commits_comparable_content` on the cold environment. -/
theorem C6_commits_comparable_content_witness :
    (checkOne wEnvCold "u").store.content "u" = some (comparableContent wHtml) ∧
    (checkOne wEnvCold "u").store.hash "u" = some (sha256Hex (comparableContent wHtml)) ∧
    (checkOne wEnvCold "u").store.updatedAt "u" = some wEnvCold.now :=
  C6_commits_comparable_content wEnvCold "u" wHtml rfl (Or.inl (by decide))

/-- After a successful fetch and a successful commit the cached fingerprint
for the target is the fingerprint of the comparable content (in the
unchanged path it already was). -/
theorem checkOne_store_hash (env : Env) (url html : String)
    (hf : env.fetch url = .ok html) (hk : env.commitOk = true) :
    (checkOne env url).store.hash url = some (sha256Hex (comparableContent html)) := by
  by_cases hfal : optFalsy (env.store.hash url) = true
  · rw [checkOne_cold_eq env url html hf hfal hk]
    simp [committedStore]
  · obtain ⟨c, hc, hne⟩ := not_falsy_shape hfal
    by_cases hd : c = sha256Hex (comparableContent html)
    · rw [checkOne_unchanged_eq env url html hf (hd ▸ hc)]
      rw [hc, hd]
    · rw [checkOne_changed_eq env url html c hf hc hne hd hk]
      simp [committedStore]

/-- C4: when the stored fingerprint equals the newly computed one the check
mutates nothing and reports `unchanged`; consequently, re-running the
check against an unchanged remote document after any successful run
reports `unchanged` and leaves the stored fingerprint, content and
timestamp exactly as the first run left them. -/
theorem C4_unchanged_noop_and_idempotent (env : Env) (url html : String)
    (hf : env.fetch url = .ok html) :
    (env.store.hash url = some (sha256Hex (comparableContent html)) →
      (checkOne env url).result.status = .unchanged ∧
      (checkOne env url).store = env.store) ∧
    (env.commitOk = true → ∀ env' : Env, env'.fetch url = .ok html →
      env'.store = (checkOne env url).store →
      (checkOne env' url).result.status = .unchanged ∧
      (checkOne env' url).store = (checkOne env url).store) := by
  constructor
  · intro hc
    rw [checkOne_unchanged_eq env url html hf hc]
    exact ⟨rfl, rfl⟩
  · intro hk env' hf' hst
    have hc' : env'.store.hash url = some (sha256Hex (comparableContent html)) := by
      rw [hst]
      exact checkOne_store_hash env url html hf hk
    rw [checkOne_unchanged_eq env' url html hf' hc']
    exact ⟨rfl, hst⟩

/-- Witness for `C4_unchanged_noop_and_idempotent`: a store already holding
the current fingerprint, and a second run on the store a cold run
produced. -/
theorem C4_unchanged_noop_and_idempotent_witness :
    ((checkOne wEnvUnchanged "u").result.status = .unchanged ∧
     (checkOne wEnvUnchanged "u").store = wEnvUnchanged.store) ∧
    ((checkOne { wEnvCold with store := (checkOne wEnvCold "u").store } "u").result.status =
        .unchanged ∧
     (checkOne { wEnvCold with store := (checkOne wEnvCold "u").store } "u").store =
        (checkOne wEnvCold "u").store) := by
  constructor
  · exact (C4_unchanged_noop_and_idempotent wEnvUnchanged "u" wHtml rfl).1 rfl
  · exact (C4_unchanged_noop_and_idempotent wEnvCold "u" wHtml rfl).2 rfl
      { wEnvCold with store := (checkOne wEnvCold "u").store } rfl rfl

/-! ### Batch aggregation -/

theorem settleAllAux_length (urls : List String) (ts : List (Except String CheckResult))
    (n : Nat) : (settleAllAux urls n ts).length = ts.length := by
  induction ts generalizing n with
  | nil => rfl
  | cons t ts ih => simp [settleAllAux, ih]

theorem settleAllAux_getD (urls : List String) (d : CheckResult)
    (ts : List (Except String CheckResult)) (n i : Nat) (hi : i < ts.length) :
    (settleAllAux urls n ts).getD i d =
      (match ts.getD i (Except.error "") with
       | .ok r => r
       | .error e => errorResult (urls.getD (n + i) "") e) := by
  induction ts generalizing n i with
  | nil => exact absurd hi (by simp)
  | cons t ts ih =>
    cases i with
    | zero => cases t <;> simp [settleAllAux]
    | succ i =>
      have hi' : i < ts.length := by simpa using hi
      have := ih (n + 1) i hi'
      simpa [settleAllAux, Nat.add_assoc, Nat.add_comm, Nat.add_left_comm] using this

theorem getD_map_of_lt {α β : Type} (f : α → β) (l : List α) (i : Nat) (d : β) (d' : α)
    (hi : i < l.length) : (l.map f).getD i d = f (l.getD i d') := by
  induction l generalizing i with
  | nil => exact absurd hi (by simp)
  | cons x xs ih =>
    cases i with
    | zero => simp
    | succ i =>
      have hi' : i < xs.length := by simpa using hi
      simpa using ih i hi'

/-- C1: the aggregation returns one `CheckResult` per configured target, in
target-list order; a task that fulfils keeps its value at its own index
and a task that rejects is replaced by an `error` result for the target
at that index, leaving every other slot untouched.  In particular
`checkSiteAndMaybeNotify` is a total function returning the per-target
`checkOne` results in order. -/
theorem C1_settle_all_order_and_isolation (urls : List String)
    (tasks : List (Except String CheckResult))
    (hlen : tasks.length = urls.length) :
    (settleAll urls tasks).length = urls.length ∧
    (∀ i r, i < urls.length → tasks.getD i (Except.error "") = Except.ok r →
      (settleAll urls tasks).getD i (errorResult "" "") = r) ∧
    (∀ i e, i < urls.length → tasks.getD i (Except.error "") = Except.error e →
      (settleAll urls tasks).getD i (errorResult "" "") =
        errorResult (urls.getD i "") e) ∧
    (∀ envOf : String → Env,
      (checkSiteAndMaybeNotify envOf urls).length = urls.length ∧
      ∀ i, i < urls.length →
        (checkSiteAndMaybeNotify envOf urls).getD i (errorResult "" "") =
          (checkOne (envOf (urls.getD i "")) (urls.getD i "")).result) := by
  refine ⟨?_, ?_, ?_, ?_⟩
  · rw [settleAll, settleAllAux_length, hlen]
  · intro i r hi ht
    have hit : i < tasks.length := by omega
    rw [settleAll, settleAllAux_getD urls _ tasks 0 i hit, ht]
  · intro i e hi ht
    have hit : i < tasks.length := by omega
    rw [settleAll, settleAllAux_getD urls _ tasks 0 i hit, ht]
    simp
  · intro envOf
    constructor
    · rw [checkSiteAndMaybeNotify, settleAll, settleAllAux_length, List.length_map]
    · intro i hi
      have hit : i < (urls.map (fun u =>
          (Except.ok (checkOne (envOf u) u).result : Except String CheckResult))).length := by
        rw [List.length_map]; exact hi
      rw [checkSiteAndMaybeNotify, settleAll, settleAllAux_getD _ _ _ 0 i hit,
        getD_map_of_lt _ urls i _ "" hi]

/-- Witness for `C1_settle_all_order_and_isolation`: two targets, the
second task rejected. -/
theorem C1_settle_all_order_and_isolation_witness :
    (settleAll ["a", "b"] [Except.ok wResult, Except.error "boom"]).length = 2 ∧
    (settleAll ["a", "b"] [Except.ok wResult, Except.error "boom"]).getD 0
      (errorResult "" "") = wResult ∧
    (settleAll ["a", "b"] [Except.ok wResult, Except.error "boom"]).getD 1
      (errorResult "" "") = errorResult "b" "boom" := by
  have h := C1_settle_all_order_and_isolation ["a", "b"]
    [Except.ok wResult, Except.error "boom"] rfl
  exact ⟨h.1, h.2.1 0 wResult (by norm_num) rfl, by
    have := h.2.2.1 1 "boom" (by norm_num) rfl
    simpa using this⟩

/-! ### Generic scanner lemmas -/

theorem scanGo_nil (step : List Char → Option (List Char)) (fuel : Nat) :
    scanGo step fuel [] = [] := by
  cases fuel <;> rfl

theorem matchCI_length {p s r : List Char} (h : matchCI p s = some r) :
    r.length ≤ s.length := by
  induction p generalizing s r with
  | nil =>
    simp only [matchCI, Option.some.injEq] at h
    exact h ▸ Nat.le_refl _
  | cons x xs ih =>
    cases s with
    | nil => exact absurd h (by simp [matchCI])
    | cons c cs =>
      simp only [matchCI] at h
      by_cases hc : c.toLower = x
      · rw [if_pos hc] at h
        exact Nat.le_trans (ih h) (Nat.le_succ _)
      · rw [if_neg hc] at h
        exact absurd h (by simp)

theorem length_dropWhile_le {p : Char → Bool} (l : List Char) :
    (l.dropWhile p).length ≤ l.length := by
  induction l with
  | nil => simp
  | cons c cs ih =>
    by_cases hc : p c = true
    · rw [List.dropWhile_cons_of_pos hc]
      exact Nat.le_trans ih (Nat.le_succ _)
    · rw [List.dropWhile_cons_of_neg (by simpa using hc)]

theorem csrfTagMatch_length {s r : List Char} (h : csrfTagMatch s = some r) :
    r.length < s.length := by
  unfold csrfTagMatch at h
  cases s with
  | nil => exact absurd h (by simp)
  | cons c cs =>
    simp only [] at h
    by_cases hw : isWordChar c = true
    · rw [if_pos hw] at h
      exact absurd h (by simp)
    · rw [if_neg hw] at h
      cases hd : (c :: cs).dropWhile (fun x => x ≠ '>') with
      | nil => rw [hd] at h; exact absurd h (by simp)
      | cons x rest =>
        rw [hd] at h
        simp only [] at h
        by_cases hftn : findTypeThenName 't' ((c :: cs).takeWhile (fun x => x ≠ '>')) = true
        · rw [if_pos hftn] at h
          cases h
          have hlen : (x :: r).length ≤ (c :: cs).length := by
            rw [← hd]; exact length_dropWhile_le _
          simp only [List.length_cons] at hlen ⊢
          omega
        · rw [if_neg hftn] at h
          exact absurd h (by simp)

theorem csrfStep_length {l r : List Char} (h : csrfStep l = some r) :
    r.length < l.length := by
  unfold csrfStep at h
  cases l with
  | nil => exact absurd h (by simp)
  | cons c cs =>
    simp only [] at h
    by_cases hc : c = '<'
    · rw [if_pos hc] at h
      cases hm : matchCI "input".toList cs with
      | none => rw [hm] at h; exact absurd h (by simp)
      | some rest =>
        rw [hm] at h
        have h1 := matchCI_length hm
        have h2 := csrfTagMatch_length h
        simp only [List.length_cons]
        omega
    · rw [if_neg hc] at h
      exact absurd h (by simp)

theorem findAfterClose_length {l r : List Char} (h : findAfterClose l = some r) :
    r.length < l.length := by
  induction l with
  | nil => exact absurd h (by simp [findAfterClose])
  | cons c cs ih =>
    unfold findAfterClose at h
    by_cases hc : c = '-' ∧ cs.take 2 = ['-', '>']
    · rw [if_pos hc] at h
      cases h
      have : (cs.drop 2).length ≤ cs.length := by
        rw [List.length_drop]; omega
      simp only [List.length_cons]
      omega
    · rw [if_neg hc] at h
      have := ih h
      simp only [List.length_cons]
      omega

/-- Fuel does not matter as long as it covers the input length, because
every position consumes fuel together with at least one character. -/
theorem scanGo_fuel_irrel (step : List Char → Option (List Char))
    (hstep : ∀ l r, step l = some r → r.length < l.length) :
    ∀ (f₁ : Nat) (l : List Char) (f₂ : Nat), l.length ≤ f₁ → l.length ≤ f₂ →
      scanGo step f₁ l = scanGo step f₂ l := by
  intro f₁
  induction f₁ with
  | zero =>
    intro l f₂ h1 h2
    have : l = [] := List.eq_nil_of_length_eq_zero (Nat.le_zero.mp h1)
    subst this
    rw [scanGo_nil, scanGo_nil]
  | succ n ih =>
    intro l f₂ h1 h2
    cases l with
    | nil => rw [scanGo_nil, scanGo_nil]
    | cons c cs =>
      cases f₂ with
      | zero => exact absurd h2 (by simp)
      | succ m =>
        show (match step (c :: cs) with
          | some rest => scanGo step n rest
          | none => c :: scanGo step n cs) =
          (match step (c :: cs) with
          | some rest => scanGo step m rest
          | none => c :: scanGo step m cs)
        cases hs : step (c :: cs) with
        | some rest =>
          have hr := hstep _ _ hs
          simp only [List.length_cons] at hr h1 h2
          exact ih rest m (by omega) (by omega)
        | none =>
          simp only [List.length_cons] at h1 h2
          rw [ih cs m (by omega) (by omega)]

/-- Emitting one character: when the step does not match at the head,
`scanRun` keeps the character and scans the tail. -/
theorem scanRun_cons_none {step : List Char → Option (List Char)} {c : Char}
    {cs : List Char} (h : step (c :: cs) = none) :
    scanRun step (c :: cs) = c :: scanRun step cs := by
  show scanGo step (cs.length + 1) (c :: cs) = c :: scanGo step cs.length cs
  show (match step (c :: cs) with
    | some rest => scanGo step cs.length rest
    | none => c :: scanGo step cs.length cs) = _
  rw [h]

/-- Skipping a match: when the step matches at the head, `scanRun` drops
the matched region and scans the remainder. -/
theorem scanRun_cons_some {step : List Char → Option (List Char)}
    (hstep : ∀ l r, step l = some r → r.length < l.length) {c : Char}
    {cs r : List Char} (h : step (c :: cs) = some r) :
    scanRun step (c :: cs) = scanRun step r := by
  show scanGo step (cs.length + 1) (c :: cs) = scanRun step r
  show (match step (c :: cs) with
    | some rest => scanGo step cs.length rest
    | none => c :: scanGo step cs.length cs) = _
  rw [h]
  have hr := hstep _ _ h
  simp only [List.length_cons] at hr
  exact scanGo_fuel_irrel step hstep cs.length r r.length (by omega) (Nat.le_refl _)

/-- A prefix on which the step can never fire (its trigger character `<`
does not occur) passes through the scanner unchanged. -/
theorem scanGo_append_no_lt (step : List Char → Option (List Char))
    (hstep0 : ∀ c cs, c ≠ '<' → step (c :: cs) = none) :
    ∀ (s t : List Char) (fuel : Nat), (∀ c ∈ s, c ≠ '<') →
      scanGo step (s.length + fuel) (s ++ t) = s ++ scanGo step fuel t := by
  intro s
  induction s with
  | nil => intro t fuel _; simp
  | cons c cs ih =>
    intro t fuel h
    have hc : c ≠ '<' := h c (List.mem_cons_self c cs)
    have hcs : ∀ x ∈ cs, x ≠ '<' := fun x hx => h x (List.mem_cons_of_mem c hx)
    show scanGo step (cs.length + 1 + fuel) (c :: (cs ++ t)) = c :: (cs ++ scanGo step fuel t)
    have : cs.length + 1 + fuel = (cs.length + fuel) + 1 := by omega
    rw [this]
    show (match step (c :: (cs ++ t)) with
      | some rest => scanGo step (cs.length + fuel) rest
      | none => c :: scanGo step (cs.length + fuel) (cs ++ t)) = _
    rw [hstep0 c (cs ++ t) hc]
    rw [ih t fuel hcs]

/-- `scanRun` version of the pass-through lemma. -/
theorem scanRun_append_no_lt {step : List Char → Option (List Char)}
    (hstep0 : ∀ c cs, c ≠ '<' → step (c :: cs) = none)
    {s : List Char} (t : List Char) (h : ∀ c ∈ s, c ≠ '<') :
    scanRun step (s ++ t) = s ++ scanRun step t := by
  show scanGo step (s ++ t).length (s ++ t) = s ++ scanRun step t
  rw [List.length_append]
  exact scanGo_append_no_lt step hstep0 s t t.length h

/-- A `<`-free input is left untouched by the scanner. -/
theorem scanRun_id_no_lt {step : List Char → Option (List Char)}
    (hstep0 : ∀ c cs, c ≠ '<' → step (c :: cs) = none)
    {s : List Char} (h : ∀ c ∈ s, c ≠ '<') :
    scanRun step s = s := by
  have := scanRun_append_no_lt hstep0 [] h
  simpa [scanRun, scanGo_nil] using this

/-! ### Trigger lemmas: every replacement pattern starts with `<` -/

theorem csrfStep_none_of_ne {c : Char} (hc : c ≠ '<') (cs : List Char) :
    csrfStep (c :: cs) = none := by
  unfold csrfStep
  simp only []
  rw [if_neg hc]

theorem commentStep_none_of_ne {c : Char} (hc : c ≠ '<') (cs : List Char) :
    commentStep (c :: cs) = none := by
  unfold commentStep
  simp only []
  rw [if_neg (fun h => hc h.1)]

theorem tagBlockStep_none_of_ne (tag : List Char) {c : Char} (hc : c ≠ '<')
    (cs : List Char) : tagBlockStep tag (c :: cs) = none := by
  unfold tagBlockStep
  simp only []
  rw [if_neg hc]

/-! ### Ground pattern-matching facts -/

theorem matchCI_input (rest : List Char) :
    matchCI "input".toList ('i' :: 'n' :: 'p' :: 'u' :: 't' :: rest) = some rest := rfl

theorem matchCI_type (rest : List Char) :
    matchCI "type=".toList ('t' :: 'y' :: 'p' :: 'e' :: '=' :: rest) = some rest := rfl

theorem matchCI_name (rest : List Char) :
    matchCI "name=".toList ('n' :: 'a' :: 'm' :: 'e' :: '=' :: rest) = some rest := rfl

theorem matchCI_hidden (rest : List Char) :
    matchCI "hidden".toList ('h' :: 'i' :: 'd' :: 'd' :: 'e' :: 'n' :: rest) = some rest := rfl

theorem isQuote_cases {q : Char} (h : isQuote q = true) : q = '"' ∨ q = '\'' := by
  unfold isQuote at h
  simpa using h

theorem isQuote_not_word {q : Char} (h : isQuote q = true) : isWordChar q = false := by
  rcases isQuote_cases h with rfl | rfl <;> decide

theorem isQuote_ne_gt {q : Char} (h : isQuote q = true) : q ≠ '>' := by
  rcases isQuote_cases h with rfl | rfl <;> decide

theorem matchHiddenQ_q {q q' : Char} (hq : isQuote q = true) (hq' : isQuote q' = true)
    (rest : List Char) :
    matchHiddenQ (q :: 'h' :: 'i' :: 'd' :: 'd' :: 'e' :: 'n' :: q' :: rest) = some rest := by
  unfold matchHiddenQ
  simp only []
  rw [if_pos hq, matchCI_hidden]
  simp only []
  rw [if_pos hq']

theorem csrfStep_bang (xs : List Char) : csrfStep ('<' :: '!' :: xs) = none := rfl

/-- A full case-insensitive match extends over any continuation. -/
theorem matchCI_append_exact {p a : List Char} (h : matchCI p a = some [])
    (b : List Char) : matchCI p (a ++ b) = some b := by
  induction p generalizing a with
  | nil =>
    simp only [matchCI, Option.some.injEq] at h
    subst h
    rfl
  | cons x xs ih =>
    cases a with
    | nil => exact absurd h (by simp [matchCI])
    | cons c cs =>
      simp only [matchCI] at h ⊢
      by_cases hc : c.toLower = x
      · rw [if_pos hc] at h
        rw [if_pos hc]
        exact ih h
      · rw [if_neg hc] at h
        exact absurd h (by simp)

/-- A name drawn from the anti-forgery set, quoted, satisfies the
name-pattern check. -/
theorem matchNameQ_of_csrf {q q' : Char} (hq : isQuote q = true) (hq' : isQuote q' = true)
    {nm : List Char} (h : isCsrfName nm = true)
    (rest : List Char) : matchNameQ (q :: (nm ++ (q' :: rest))) = true := by
  unfold isCsrfName at h
  rw [List.any_eq_true] at h
  obtain ⟨p, hp, hm⟩ := h
  have hm' : matchCI p nm = some [] := by simpa using hm
  unfold matchNameQ
  simp only []
  rw [Bool.and_eq_true]
  refine ⟨hq, ?_⟩
  rw [List.any_eq_true]
  refine ⟨p, hp, ?_⟩
  rw [matchCI_append_exact hm' (q' :: rest)]
  exact hq' 

theorem findName_tail (prev : Char) {c : Char} {cs : List Char}
    (h : findName c cs = true) : findName prev (c :: cs) = true := by
  unfold findName
  rw [h, Bool.or_true]

theorem findName_at {prev : Char} (hprev : isWordChar prev = false)
    {rest : List Char} (h : matchNameQ rest = true) :
    findName prev ('n' :: 'a' :: 'm' :: 'e' :: '=' :: rest) = true := by
  unfold findName
  rw [matchCI_name]
  simp [hprev, h]

theorem ftn_tail (prev : Char) {c : Char} {cs : List Char}
    (h : findTypeThenName c cs = true) : findTypeThenName prev (c :: cs) = true := by
  unfold findTypeThenName
  rw [h, Bool.or_true]

/-- `findName` inspects its boundary character only through `isWordChar`. -/
theorem findName_congr {p₁ p₂ : Char} (h : isWordChar p₁ = isWordChar p₂) (l : List Char) :
    findName p₁ l = findName p₂ l := by
  cases l with
  | nil => rfl
  | cons c cs =>
    unfold findName
    rw [h]

theorem ftn_atG {prev : Char} (hprev : isWordChar prev = false)
    {q q' : Char} (hq : isQuote q = true) (hq' : isQuote q' = true)
    {rest : List Char} (h : findName q' rest = true) :
    findTypeThenName prev
      ('t' :: 'y' :: 'p' :: 'e' :: '=' :: q :: 'h' :: 'i' :: 'd' :: 'd' :: 'e' :: 'n' ::
        q' :: rest) = true := by
  have h2 : findName '"' rest = true := by
    rw [findName_congr (show isWordChar '"' = isWordChar q' by
      rw [isQuote_not_word hq']; decide) rest]
    exact h
  unfold findTypeThenName
  rw [matchCI_type]
  simp only []
  rw [matchHiddenQ_q hq hq']
  simp [hprev, h2]

theorem findName_skip (prev : Char) (J : List Char) {l : List Char}
    (h : findName (J.getLastD prev) l = true) : findName prev (J ++ l) = true := by
  induction J generalizing prev with
  | nil => simpa using h
  | cons x xs ih =>
    show findName prev (x :: (xs ++ l)) = true
    apply findName_tail
    apply ih
    rw [← List.getLastD_cons prev x xs]
    exact h

theorem ftn_skip (prev : Char) (J : List Char) {l : List Char}
    (h : findTypeThenName (J.getLastD prev) l = true) :
    findTypeThenName prev (J ++ l) = true := by
  induction J generalizing prev with
  | nil => simpa using h
  | cons x xs ih =>
    show findTypeThenName prev (x :: (xs ++ l)) = true
    apply ftn_tail
    apply ih
    rw [← List.getLastD_cons prev x xs]
    exact h

/-- A full case-insensitive match constrains every character of the
matched text to fold onto a pattern character. -/
theorem matchCI_exact_chars {p s : List Char} (h : matchCI p s = some []) :
    ∀ c ∈ s, ∃ x ∈ p, c.toLower = x := by
  induction p generalizing s with
  | nil =>
    simp only [matchCI, Option.some.injEq] at h
    subst h
    simp
  | cons x xs ih =>
    cases s with
    | nil => simp
    | cons c cs =>
      simp only [matchCI] at h
      by_cases hc : c.toLower = x
      · rw [if_pos hc] at h
        intro d hd
        rcases List.mem_cons.mp hd with rfl | hd
        · exact ⟨x, List.mem_cons_self x xs, hc⟩
        · obtain ⟨y, hy, hdy⟩ := ih h d hd
          exact ⟨y, List.mem_cons_of_mem x hy, hdy⟩
      · rw [if_neg hc] at h
        exact absurd h (by simp)

/-- An anti-forgery field name contains no `>`. -/
theorem isCsrfName_ne_gt {nm : List Char} (h : isCsrfName nm = true) :
    ∀ c ∈ nm, c ≠ '>' := by
  unfold isCsrfName at h
  rw [List.any_eq_true] at h
  obtain ⟨p, hp, hm⟩ := h
  have hm' : matchCI p nm = some [] := by simpa using hm
  intro c hc hceq
  subst hceq
  obtain ⟨x, hxp, hx⟩ := matchCI_exact_chars hm' '>' hc
  have hgt : ('>' : Char) ∈ p := by
    have : ('>' : Char).toLower = '>' := by decide
    rw [this] at hx
    exact hx ▸ hxp
  simp only [csrfNames, List.mem_cons, List.not_mem_nil, or_false] at hp
  rcases hp with rfl | rfl | rfl | rfl <;> exact absurd hgt (by decide)

/-! ### takeWhile and dropWhile over satisfied prefixes -/

theorem takeWhile_append_all {p : Char → Bool} {xs : List Char} (ys : List Char)
    (h : ∀ x ∈ xs, p x = true) :
    (xs ++ ys).takeWhile p = xs ++ ys.takeWhile p := by
  induction xs with
  | nil => simp
  | cons x xs ih =>
    have hx : p x = true := h x (List.mem_cons_self x xs)
    simp only [List.cons_append, List.takeWhile_cons_of_pos hx]
    rw [ih (fun a ha => h a (List.mem_cons_of_mem x ha))]

theorem dropWhile_append_all {p : Char → Bool} {xs : List Char} (ys : List Char)
    (h : ∀ x ∈ xs, p x = true) :
    (xs ++ ys).dropWhile p = ys.dropWhile p := by
  induction xs with
  | nil => simp
  | cons x xs ih =>
    have hx : p x = true := h x (List.mem_cons_self x xs)
    simp only [List.cons_append, List.dropWhile_cons_of_pos hx]
    exact ih (fun a ha => h a (List.mem_cons_of_mem x ha))

/-! ### The hidden-input regex matches any type-before-name tag -/

/-- The tag interior satisfies the `\btype=…hidden…` then `\bname=…`
search, for any fillers with non-word boundary characters and any
quoting. -/
theorem ftn_tag_bodyG (j₁ : List Char) {q₁ q₁' : Char} (j₂ : List Char) {q₂ : Char}
    (nm : List Char) {q₂' : Char} (j₃ : List Char)
    (hnm : isCsrfName nm = true)
    (hb₁ : isWordChar (j₁.getLastD 't') = false)
    (hq₁ : isQuote q₁ = true) (hq₁' : isQuote q₁' = true)
    (hb₂ : isWordChar (j₂.getLastD q₁') = false)
    (hq₂ : isQuote q₂ = true) (hq₂' : isQuote q₂' = true) :
    findTypeThenName 't' (csrfBody j₁ q₁ q₁' j₂ q₂ nm q₂' j₃) = true := by
  unfold csrfBody
  apply ftn_skip
  apply ftn_atG hb₁ hq₁ hq₁'
  apply findName_skip
  apply findName_at hb₂
  exact matchNameQ_of_csrf hq₂ hq₂' hnm j₃

/-- Every character of the tag interior differs from `>`. -/
theorem csrfBody_ne_gt (j₁ : List Char) {q₁ q₁' : Char} (j₂ : List Char) {q₂ : Char}
    (nm : List Char) {q₂' : Char} (j₃ : List Char)
    (hnm : isCsrfName nm = true)
    (hq₁ : isQuote q₁ = true) (hq₁' : isQuote q₁' = true)
    (hq₂ : isQuote q₂ = true) (hq₂' : isQuote q₂' = true)
    (hj₁ : ∀ c ∈ j₁, c ≠ '>') (hj₂ : ∀ c ∈ j₂, c ≠ '>') (hj₃ : ∀ c ∈ j₃, c ≠ '>') :
    ∀ c ∈ csrfBody j₁ q₁ q₁' j₂ q₂ nm q₂' j₃, c ≠ '>' := by
  intro c hc
  unfold csrfBody at hc
  simp only [List.mem_append, List.mem_cons] at hc
  rcases hc with hc | rfl | rfl | rfl | rfl | rfl | rfl | rfl | rfl | rfl | rfl | rfl | rfl |
    rfl | hc | rfl | rfl | rfl | rfl | rfl | rfl | hc | rfl | hc
  · exact hj₁ c hc
  · decide
  · decide
  · decide
  · decide
  · decide
  · exact isQuote_ne_gt hq₁
  · decide
  · decide
  · decide
  · decide
  · decide
  · decide
  · exact isQuote_ne_gt hq₁'
  · exact hj₂ c hc
  · decide
  · decide
  · decide
  · decide
  · decide
  · exact isQuote_ne_gt hq₂
  · exact isCsrfName_ne_gt hnm c hc
  · exact isQuote_ne_gt hq₂'
  · exact hj₃ c hc

/-- `csrfTagMatch` accepts a `>`-free interior that passes the
type-then-name search, consuming exactly up to the closing `>`. -/
theorem csrfTagMatch_of_body {B : List Char} {x : Char} {xs : List Char}
    (hB : B = x :: xs) (hxw : isWordChar x = false)
    (hall : ∀ y ∈ B, y ≠ '>')
    (hftn : findTypeThenName 't' B = true) (t : List Char) :
    csrfTagMatch (B ++ ('>' :: t)) = some t := by
  subst hB
  have hall' : ∀ y ∈ x :: xs, (fun z => decide (z ≠ '>')) y = true := fun y hy => by
    simpa using hall y hy
  have hd : List.dropWhile (fun z => decide (z ≠ '>')) ((x :: xs) ++ ('>' :: t)) =
      '>' :: t := by
    rw [dropWhile_append_all _ hall', List.dropWhile_cons_of_neg (by simp)]
  have ht : List.takeWhile (fun z => decide (z ≠ '>')) ((x :: xs) ++ ('>' :: t)) =
      x :: xs := by
    rw [takeWhile_append_all _ hall', List.takeWhile_cons_of_neg (by simp), List.append_nil]
  show csrfTagMatch (x :: (xs ++ ('>' :: t))) = some t
  unfold csrfTagMatch
  simp only []
  rw [if_neg (by simp [hxw])]
  rw [show (x :: (xs ++ ('>' :: t)) : List Char) = (x :: xs) ++ ('>' :: t) from rfl, hd]
  simp only []
  rw [if_pos (by rw [ht]; exact hftn)]

/-- The hidden-input pattern matches `csrfTagG` exactly up to its closing
`>`, for any continuation. -/
theorem csrfStep_tagG (j₁ : List Char) {q₁ q₁' : Char} (j₂ : List Char) {q₂ : Char}
    (nm : List Char) {q₂' : Char} (j₃ : List Char) (t : List Char)
    (hnm : isCsrfName nm = true)
    (hh₁ : isWordChar (j₁.headD 't') = false)
    (hb₁ : isWordChar (j₁.getLastD 't') = false)
    (hq₁ : isQuote q₁ = true) (hq₁' : isQuote q₁' = true)
    (hb₂ : isWordChar (j₂.getLastD q₁') = false)
    (hq₂ : isQuote q₂ = true) (hq₂' : isQuote q₂' = true)
    (hj₁ : ∀ c ∈ j₁, c ≠ '>') (hj₂ : ∀ c ∈ j₂, c ≠ '>') (hj₃ : ∀ c ∈ j₃, c ≠ '>') :
    csrfStep (csrfTagG j₁ q₁ q₁' j₂ q₂ nm q₂' j₃ ++ t) = some t := by
  obtain ⟨x, xs, hj⟩ : ∃ x xs, j₁ = x :: xs := by
    cases j₁ with
    | nil => exact absurd hb₁ (by decide)
    | cons a as => exact ⟨a, as, rfl⟩
  have hxw : isWordChar x = false := by
    rw [hj] at hh₁
    simpa using hh₁
  have hB : csrfBody j₁ q₁ q₁' j₂ q₂ nm q₂' j₃ =
      x :: (xs ++ ('t' :: 'y' :: 'p' :: 'e' :: '=' :: q₁ ::
        'h' :: 'i' :: 'd' :: 'd' :: 'e' :: 'n' :: q₁' ::
        (j₂ ++ ('n' :: 'a' :: 'm' :: 'e' :: '=' :: q₂ :: (nm ++ (q₂' :: j₃)))))) := by
    unfold csrfBody
    rw [hj]
    rfl
  have hexp : csrfTagG j₁ q₁ q₁' j₂ q₂ nm q₂' j₃ ++ t =
      '<' :: 'i' :: 'n' :: 'p' :: 'u' :: 't' ::
        (csrfBody j₁ q₁ q₁' j₂ q₂ nm q₂' j₃ ++ ('>' :: t)) := by
    simp [csrfTagG]
  rw [hexp]
  unfold csrfStep
  simp only [if_true]
  rw [matchCI_input]
  simp only []
  exact csrfTagMatch_of_body hB hxw
    (csrfBody_ne_gt j₁ j₂ nm j₃ hnm hq₁ hq₁' hq₂ hq₂' hj₁ hj₂ hj₃)
    (ftn_tag_bodyG j₁ j₂ nm j₃ hnm hb₁ hq₁ hq₁' hb₂ hq₂ hq₂') t

/-- Removing the tag: the scan erases it and continues after the closing
`>`. -/
theorem removeCsrf_tagG_mid (pre : List Char) (j₁ : List Char) {q₁ q₁' : Char}
    (j₂ : List Char) {q₂ : Char} (nm : List Char) {q₂' : Char} (j₃ post : List Char)
    (hpre : ∀ c ∈ pre, c ≠ '<')
    (hnm : isCsrfName nm = true)
    (hh₁ : isWordChar (j₁.headD 't') = false)
    (hb₁ : isWordChar (j₁.getLastD 't') = false)
    (hq₁ : isQuote q₁ = true) (hq₁' : isQuote q₁' = true)
    (hb₂ : isWordChar (j₂.getLastD q₁') = false)
    (hq₂ : isQuote q₂ = true) (hq₂' : isQuote q₂' = true)
    (hj₁ : ∀ c ∈ j₁, c ≠ '>') (hj₂ : ∀ c ∈ j₂, c ≠ '>') (hj₃ : ∀ c ∈ j₃, c ≠ '>') :
    removeCsrfInputs (pre ++ (csrfTagG j₁ q₁ q₁' j₂ q₂ nm q₂' j₃ ++ post)) =
      pre ++ removeCsrfInputs post := by
  unfold removeCsrfInputs
  rw [scanRun_append_no_lt (fun c cs hc => csrfStep_none_of_ne hc cs) _ hpre]
  obtain ⟨X, hexp⟩ : ∃ X, csrfTagG j₁ q₁ q₁' j₂ q₂ nm q₂' j₃ ++ post = '<' :: X := ⟨_, rfl⟩
  have hmatch : csrfStep ('<' :: X) = some post := by
    rw [← hexp]
    exact csrfStep_tagG j₁ j₂ nm j₃ post hnm hh₁ hb₁ hq₁ hq₁' hb₂ hq₂ hq₂' hj₁ hj₂ hj₃
  rw [hexp, scanRun_cons_some (fun l r h => csrfStep_length h) hmatch]

/-! ### Comment removal -/

/-- A comment interior whose text carries no `-->` close marker scans
through to the marker that follows it. -/
theorem findAfterClose_no_marker {c : List Char} (h : hasCloseMarker c = false)
    (X : List Char) :
    findAfterClose (c ++ ('-' :: '-' :: '>' :: X)) = some X := by
  induction c with
  | nil =>
    show findAfterClose ('-' :: '-' :: '>' :: X) = some X
    unfold findAfterClose
    rw [if_pos (by exact ⟨rfl, rfl⟩)]
    rfl
  | cons x xs ih =>
    unfold hasCloseMarker at h
    by_cases hc : x = '-' ∧ xs.take 2 = ['-', '>']
    · rw [if_pos hc] at h
      exact absurd h (by simp)
    · rw [if_neg hc] at h
      show findAfterClose (x :: (xs ++ ('-' :: '-' :: '>' :: X))) = some X
      unfold findAfterClose
      rw [if_neg ?hne]
      case hne =>
        intro hcond
        apply hc
        refine ⟨hcond.1, ?_⟩
        cases xs with
        | nil => simp at hcond
        | cons a as =>
          cases as with
          | nil => simp at hcond
          | cons b bs => simpa using hcond.2
      exact ih h

theorem commentStep_comment (c R : List Char) (h : hasCloseMarker c = false) :
    commentStep (commentWrap c ++ R) = some R := by
  have hexp : commentWrap c ++ R =
      '<' :: ('!' :: '-' :: '-' :: (c ++ ('-' :: '-' :: '>' :: R))) := by
    simp [commentWrap]
  rw [hexp]
  unfold commentStep
  simp only []
  rw [if_pos (by exact ⟨trivial, rfl⟩)]
  show findAfterClose (c ++ ('-' :: '-' :: '>' :: R)) = some R
  exact findAfterClose_no_marker h R

theorem commentStep_length {l r : List Char} (h : commentStep l = some r) :
    r.length < l.length := by
  cases l with
  | nil => exact absurd h (by simp [commentStep])
  | cons ch cs =>
    unfold commentStep at h
    simp only [] at h
    by_cases hc : ch = '<' ∧ cs.take 3 = ['!', '-', '-']
    · rw [if_pos hc] at h
      have h1 := findAfterClose_length h
      have h2 : (cs.drop 3).length ≤ cs.length := by
        rw [List.length_drop]; omega
      simp only [List.length_cons]
      omega
    · rw [if_neg hc] at h
      exact absurd h (by simp)

theorem removeCsrf_comment_mid (pre c post : List Char)
    (hpre : ∀ x ∈ pre, x ≠ '<') (hcLt : ∀ x ∈ c, x ≠ '<') :
    removeCsrfInputs (pre ++ (commentWrap c ++ post)) =
      pre ++ (commentWrap c ++ removeCsrfInputs post) := by
  unfold removeCsrfInputs
  rw [scanRun_append_no_lt (fun ch cs hc => csrfStep_none_of_ne hc cs) _ hpre]
  have hexp : commentWrap c ++ post =
      '<' :: '!' :: (('-' :: '-' :: (c ++ ['-', '-', '>'])) ++ post) := by
    simp [commentWrap]
  rw [hexp, scanRun_cons_none (csrfStep_bang _)]
  have hT : ('!' :: (('-' :: '-' :: (c ++ ['-', '-', '>'])) ++ post) : List Char) =
      ('!' :: '-' :: '-' :: (c ++ ['-', '-', '>'])) ++ post := by
    simp
  rw [hT, scanRun_append_no_lt (fun ch cs hc => csrfStep_none_of_ne hc cs) _ ?hS]
  case hS =>
    intro x hx hxeq
    subst hxeq
    simp only [List.mem_cons, List.mem_append] at hx
    rcases hx with h | h | h | h | h
    · exact absurd h (by decide)
    · exact absurd h (by decide)
    · exact absurd h (by decide)
    · exact hcLt _ h rfl
    · exact absurd h (by decide)
  simp [commentWrap]

theorem removeComments_comment_mid (pre c R : List Char)
    (hpre : ∀ x ∈ pre, x ≠ '<') (hmk : hasCloseMarker c = false) :
    removeComments (pre ++ (commentWrap c ++ R)) = pre ++ removeComments R := by
  unfold removeComments
  rw [scanRun_append_no_lt (fun ch cs hc => commentStep_none_of_ne hc cs) _ hpre]
  obtain ⟨X, hexp⟩ : ∃ X, commentWrap c ++ R = '<' :: X := ⟨_, rfl⟩
  have hmatch : commentStep ('<' :: X) = some R := by
    rw [← hexp]
    exact commentStep_comment c R hmk
  rw [hexp, scanRun_cons_some (fun l r h => commentStep_length h) hmatch]

/-! ### Whitespace collapse -/

theorem isJsWs_ne_lt {x : Char} (h : isJsWs x = true) : x ≠ '<' := by
  intro hx
  subst hx
  exact absurd h (by decide)

theorem collapseWsAux_cons_ws_true {x : Char} (hx : isJsWs x = true) (l : List Char) :
    collapseWsAux (x :: l) true = collapseWsAux l true := by
  simp [collapseWsAux, hx]

theorem collapseWsAux_cons_ws_false {x : Char} (hx : isJsWs x = true) (l : List Char) :
    collapseWsAux (x :: l) false = ' ' :: collapseWsAux l true := by
  simp [collapseWsAux, hx]

theorem collapseWsAux_cons_nws {x : Char} (hx : ¬isJsWs x = true) (l : List Char)
    (b : Bool) : collapseWsAux (x :: l) b = x :: collapseWsAux l false := by
  simp [collapseWsAux, hx]

theorem collapseWsAux_ws_true {w : List Char} (ys : List Char)
    (hw : ∀ x ∈ w, isJsWs x = true) :
    collapseWsAux (w ++ ys) true = collapseWsAux ys true := by
  induction w with
  | nil => rfl
  | cons x xs ih =>
    have hx : isJsWs x = true := hw x (List.mem_cons_self x xs)
    show collapseWsAux (x :: (xs ++ ys)) true = _
    rw [collapseWsAux_cons_ws_true hx]
    exact ih (fun a ha => hw a (List.mem_cons_of_mem x ha))

theorem collapseWsAux_ws_false {w : List Char} (ys : List Char) (hne : w ≠ [])
    (hw : ∀ x ∈ w, isJsWs x = true) :
    collapseWsAux (w ++ ys) false = ' ' :: collapseWsAux ys true := by
  cases w with
  | nil => exact absurd rfl hne
  | cons x xs =>
    have hx : isJsWs x = true := hw x (List.mem_cons_self x xs)
    show collapseWsAux (x :: (xs ++ ys)) false = _
    rw [collapseWsAux_cons_ws_false hx,
      collapseWsAux_ws_true ys (fun a ha => hw a (List.mem_cons_of_mem x ha))]

theorem collapseWsAux_run_stable (w₁ w₂ post : List Char)
    (hne₁ : w₁ ≠ []) (hne₂ : w₂ ≠ [])
    (hw₁ : ∀ x ∈ w₁, isJsWs x = true) (hw₂ : ∀ x ∈ w₂, isJsWs x = true) :
    ∀ (pre : List Char) (b : Bool),
      collapseWsAux (pre ++ (w₁ ++ post)) b = collapseWsAux (pre ++ (w₂ ++ post)) b := by
  intro pre
  induction pre with
  | nil =>
    intro b
    cases b with
    | true =>
      simp only [List.nil_append]
      rw [collapseWsAux_ws_true post hw₁, collapseWsAux_ws_true post hw₂]
    | false =>
      simp only [List.nil_append]
      rw [collapseWsAux_ws_false post hne₁ hw₁, collapseWsAux_ws_false post hne₂ hw₂]
  | cons c cs ih =>
    intro b
    show collapseWsAux (c :: (cs ++ (w₁ ++ post))) b =
      collapseWsAux (c :: (cs ++ (w₂ ++ post))) b
    by_cases hc : isJsWs c = true
    · cases b with
      | true =>
        rw [collapseWsAux_cons_ws_true hc, collapseWsAux_cons_ws_true hc]
        exact ih true
      | false =>
        rw [collapseWsAux_cons_ws_false hc, collapseWsAux_cons_ws_false hc, ih true]
    · rw [collapseWsAux_cons_nws hc _ b, collapseWsAux_cons_nws hc _ b, ih false]

/-- A scanner that only fires on `<` passes over a `<`-free prefix and
whitespace run, whatever follows. -/
theorem scanRun_ws_mid {step : List Char → Option (List Char)}
    (hstep0 : ∀ c cs, c ≠ '<' → step (c :: cs) = none)
    {pre w : List Char} (hpw : ∀ x ∈ pre ++ w, x ≠ '<') (R : List Char) :
    scanRun step (pre ++ (w ++ R)) = pre ++ (w ++ scanRun step R) := by
  have h := scanRun_append_no_lt hstep0 R hpw
  simp only [List.append_assoc] at h
  exact h

/-! ### Normalization stability -/

theorem sanitize_tagG_removed (pre : List Char) (j₁ : List Char) {q₁ q₁' : Char}
    (j₂ : List Char) {q₂ : Char} (nm : List Char) {q₂' : Char} (j₃ post : List Char)
    (hpre : ∀ c ∈ pre, c ≠ '<')
    (hnm : isCsrfName nm = true)
    (hh₁ : isWordChar (j₁.headD 't') = false)
    (hb₁ : isWordChar (j₁.getLastD 't') = false)
    (hq₁ : isQuote q₁ = true) (hq₁' : isQuote q₁' = true)
    (hb₂ : isWordChar (j₂.getLastD q₁') = false)
    (hq₂ : isQuote q₂ = true) (hq₂' : isQuote q₂' = true)
    (hj₁ : ∀ c ∈ j₁, c ≠ '>') (hj₂ : ∀ c ∈ j₂, c ≠ '>') (hj₃ : ∀ c ∈ j₃, c ≠ '>') :
    sanitizeChars (pre ++ (csrfTagG j₁ q₁ q₁' j₂ q₂ nm q₂' j₃ ++ post)) =
      sanitizeChars (pre ++ post) := by
  unfold sanitizeChars
  rw [removeCsrf_tagG_mid pre j₁ j₂ nm j₃ post hpre hnm hh₁ hb₁ hq₁ hq₁' hb₂ hq₂ hq₂'
      hj₁ hj₂ hj₃,
    show removeCsrfInputs (pre ++ post) = pre ++ removeCsrfInputs post from by
      unfold removeCsrfInputs
      exact scanRun_append_no_lt (fun c cs hc => csrfStep_none_of_ne hc cs) _ hpre]

theorem sanitize_comment_stable (pre c₁ c₂ post : List Char)
    (hpre : ∀ x ∈ pre, x ≠ '<')
    (hlt₁ : ∀ x ∈ c₁, x ≠ '<') (hmk₁ : hasCloseMarker c₁ = false)
    (hlt₂ : ∀ x ∈ c₂, x ≠ '<') (hmk₂ : hasCloseMarker c₂ = false) :
    sanitizeChars (pre ++ (commentWrap c₁ ++ post)) =
      sanitizeChars (pre ++ (commentWrap c₂ ++ post)) := by
  unfold sanitizeChars
  rw [removeCsrf_comment_mid pre c₁ post hpre hlt₁,
    removeCsrf_comment_mid pre c₂ post hpre hlt₂,
    removeComments_comment_mid pre c₁ _ hpre hmk₁,
    removeComments_comment_mid pre c₂ _ hpre hmk₂]

theorem sanitize_ws_stable (pre w₁ w₂ post : List Char)
    (hpre : ∀ x ∈ pre, x ≠ '<')
    (hne₁ : w₁ ≠ []) (hne₂ : w₂ ≠ [])
    (hw₁ : ∀ x ∈ w₁, isJsWs x = true) (hw₂ : ∀ x ∈ w₂, isJsWs x = true) :
    sanitizeChars (pre ++ (w₁ ++ post)) = sanitizeChars (pre ++ (w₂ ++ post)) := by
  have hall : ∀ (w : List Char), (∀ x ∈ w, isJsWs x = true) →
      ∀ x ∈ pre ++ w, x ≠ '<' := by
    intro w hw x hx
    rcases List.mem_append.mp hx with hx | hx
    · exact hpre x hx
    · exact isJsWs_ne_lt (hw x hx)
  unfold sanitizeChars removeCsrfInputs removeComments removeTagBlocks
  rw [scanRun_ws_mid (fun c cs hc => csrfStep_none_of_ne hc cs) (hall w₁ hw₁) post,
    scanRun_ws_mid (fun c cs hc => commentStep_none_of_ne hc cs) (hall w₁ hw₁) _,
    scanRun_ws_mid (fun c cs hc => tagBlockStep_none_of_ne _ hc cs) (hall w₁ hw₁) _,
    scanRun_ws_mid (fun c cs hc => tagBlockStep_none_of_ne _ hc cs) (hall w₁ hw₁) _,
    scanRun_ws_mid (fun c cs hc => csrfStep_none_of_ne hc cs) (hall w₂ hw₂) post,
    scanRun_ws_mid (fun c cs hc => commentStep_none_of_ne hc cs) (hall w₂ hw₂) _,
    scanRun_ws_mid (fun c cs hc => tagBlockStep_none_of_ne _ hc cs) (hall w₂ hw₂) _,
    scanRun_ws_mid (fun c cs hc => tagBlockStep_none_of_ne _ hc cs) (hall w₂ hw₂) _,
    collapseWsAux_run_stable w₁ w₂ _ hne₁ hne₂ hw₁ hw₂ pre false]

/-- C5 counterexample: removal by the hidden-input regex is syntax- and
order-sensitive. Each conjunct exhibits a pair of documents. (i) Inputs
with `name` before `type` are kept, so their values distinguish outputs,
while (ii) the same input with `type` first is removed from both. (iii) A
`>` inside a quoted attribute value ends the match early, so such inputs
are not removed whole. (iv) Unquoted `type=hidden name=csrf` inputs are
kept. (v) Whitespace inserted inside markup (`type =`) changes the output.
(vi) A bare `ab` versus `a b` differ, so only changes between nonempty
whitespace runs are neutral. (vii) Comment text containing `<input …`
markup changes the output, and (viii) so does a comment splitting an
`<input` tag: the comment clauses hold only for markup-free text.
(ix) An unclosed `<input` before the anti-forgery tag makes the match
start there and swallow the preceding markup, so the tag-removal clause
too holds only after markup-free text. -/
theorem C5_counterexample_syntax_sensitivity :
    (sanitizeDynamicContent "<input name=\"csrf\" type=\"hidden\" value=\"A\">" ≠
      sanitizeDynamicContent "<input name=\"csrf\" type=\"hidden\" value=\"B\">") ∧
    (sanitizeDynamicContent "<input type=\"hidden\" name=\"csrf\" value=\"A\">" =
      sanitizeDynamicContent "<input type=\"hidden\" name=\"csrf\" value=\"B\">") ∧
    (sanitizeDynamicContent "<input type=\"hidden\" name=\"csrf\" value=\"a>b\">x" ≠
      sanitizeDynamicContent "<input type=\"hidden\" name=\"csrf\" value=\"a>c\">x") ∧
    (sanitizeDynamicContent "<input type=hidden name=csrf value=A>x" ≠
      sanitizeDynamicContent "<input type=hidden name=csrf value=B>x") ∧
    (sanitizeDynamicContent "<input type =\"hidden\" name=\"csrf\">x" ≠
      sanitizeDynamicContent "<input type=\"hidden\" name=\"csrf\">x") ∧
    (sanitizeDynamicContent "ab" ≠ sanitizeDynamicContent "a b") ∧
    (sanitizeDynamicContent "<!--<input type=\"hidden\" name=\"csrf\" value=\"-->x" ≠
      sanitizeDynamicContent "<!--hello-->x") ∧
    (sanitizeDynamicContent "<input type=\"hidden\" a<!-- name=\"csrf\"-->>x" ≠
      sanitizeDynamicContent "<input type=\"hidden\" a<!-- b-->>x") ∧
    (sanitizeDynamicContent "<input b <input type=\"hidden\" name=\"csrf\" value=\"A\">y" ≠
      sanitizeDynamicContent "<input b y") := by
  refine ⟨by decide, by decide, by decide, by decide, by decide, by decide, by decide,
    by decide, by decide⟩

/-- C5 (amended): normalization removes every hidden form input in which a
`type` attribute with quoted value `hidden` precedes a `name` attribute
whose quoted value case-insensitively matches one of
`{_token, csrf, csrf_token, authenticity_token}` — with any quoting style,
any other attributes or spacing, provided the tag interior contains no `>`
and the tag follows markup-free text; consequently raw documents differing
only in such an anti-forgery hidden-input value, in the close-marker-free
interior text of an HTML comment in markup-free context, or in a nonempty
whitespace run of markup-free text, produce identical normalized
output. -/
theorem C5_normalization_stability :
    (∀ (pre j₁ : List Char) (q₁ q₁' : Char) (j₂ : List Char) (q₂ : Char)
        (nm : List Char) (q₂' : Char) (j₃ post : List Char),
      (∀ c ∈ pre, c ≠ '<') → isCsrfName nm = true →
      isWordChar (j₁.headD 't') = false → isWordChar (j₁.getLastD 't') = false →
      isQuote q₁ = true → isQuote q₁' = true →
      isWordChar (j₂.getLastD q₁') = false →
      isQuote q₂ = true → isQuote q₂' = true →
      (∀ c ∈ j₁, c ≠ '>') → (∀ c ∈ j₂, c ≠ '>') → (∀ c ∈ j₃, c ≠ '>') →
      sanitizeDynamicContent
          (String.mk (pre ++ (csrfTagG j₁ q₁ q₁' j₂ q₂ nm q₂' j₃ ++ post))) =
        sanitizeDynamicContent (String.mk (pre ++ post))) ∧
    (∀ pre c₁ c₂ post : List Char, (∀ x ∈ pre, x ≠ '<') →
      (∀ x ∈ c₁, x ≠ '<') → hasCloseMarker c₁ = false →
      (∀ x ∈ c₂, x ≠ '<') → hasCloseMarker c₂ = false →
      sanitizeDynamicContent (String.mk (pre ++ (commentWrap c₁ ++ post))) =
        sanitizeDynamicContent (String.mk (pre ++ (commentWrap c₂ ++ post)))) ∧
    (∀ pre w₁ w₂ post : List Char, (∀ x ∈ pre, x ≠ '<') →
      w₁ ≠ [] → w₂ ≠ [] → (∀ x ∈ w₁, isJsWs x = true) → (∀ x ∈ w₂, isJsWs x = true) →
      sanitizeDynamicContent (String.mk (pre ++ (w₁ ++ post))) =
        sanitizeDynamicContent (String.mk (pre ++ (w₂ ++ post)))) := by
  refine ⟨?_, ?_, ?_⟩
  · intro pre j₁ q₁ q₁' j₂ q₂ nm q₂' j₃ post h1 h2 h3 h4 h5 h6 h7 h8 h9 h10 h11 h12
    show String.mk (sanitizeChars (pre ++ (csrfTagG j₁ q₁ q₁' j₂ q₂ nm q₂' j₃ ++ post))) =
      String.mk (sanitizeChars (pre ++ post))
    rw [sanitize_tagG_removed pre j₁ j₂ nm j₃ post h1 h2 h3 h4 h5 h6 h7 h8 h9 h10 h11 h12]
  · intro pre c₁ c₂ post h1 h2 h3 h4 h5
    show String.mk (sanitizeChars (pre ++ (commentWrap c₁ ++ post))) =
      String.mk (sanitizeChars (pre ++ (commentWrap c₂ ++ post)))
    rw [sanitize_comment_stable pre c₁ c₂ post h1 h2 h3 h4 h5]
  · intro pre w₁ w₂ post h1 h2 h3 h4 h5
    show String.mk (sanitizeChars (pre ++ (w₁ ++ post))) =
      String.mk (sanitizeChars (pre ++ (w₂ ++ post)))
    rw [sanitize_ws_stable pre w₁ w₂ post h1 h2 h3 h4 h5]

/-- Witness for `C5_normalization_stability`: a single-quoted, extra-
attribute, case-varied tag; a dash-bearing comment interior; and a
whitespace run followed by markup. -/
theorem C5_normalization_stability_witness :
    sanitizeDynamicContent (String.mk ("ab ".toList ++
        (csrfTagG " data-x='1' ".toList '\'' '\'' " ".toList '"' "CSRF".toList '"'
          " value='zz' ".toList ++ "<p>hi</p>".toList))) =
      sanitizeDynamicContent (String.mk ("ab ".toList ++ "<p>hi</p>".toList)) ∧
    sanitizeDynamicContent (String.mk ("ab ".toList ++
        (commentWrap "a-b c".toList ++ "tail".toList))) =
      sanitizeDynamicContent (String.mk ("ab ".toList ++
        (commentWrap "x y".toList ++ "tail".toList))) ∧
    sanitizeDynamicContent (String.mk ("a".toList ++ ([' '] ++ "b<p>".toList))) =
      sanitizeDynamicContent (String.mk ("a".toList ++ (['\n', '\t'] ++ "b<p>".toList))) := by
  refine ⟨?_, ?_, ?_⟩
  · exact C5_normalization_stability.1 "ab ".toList " data-x='1' ".toList '\'' '\''
      " ".toList '"' "CSRF".toList '"' " value='zz' ".toList "<p>hi</p>".toList
      (by decide) (by decide) (by decide) (by decide) (by decide) (by decide)
      (by decide) (by decide) (by decide) (by decide) (by decide) (by decide)
  · exact C5_normalization_stability.2.1 "ab ".toList "a-b c".toList "x y".toList
      "tail".toList (by decide) (by decide) (by decide) (by decide) (by decide)
  · exact C5_normalization_stability.2.2 "a".toList [' '] ['\n', '\t'] "b<p>".toList
      (by decide) (by decide) (by decide) (by decide) (by decide)

end UrlWatcher
